import Mathlib

/-!
Verification of the MemSimX memory-management simulator core.

This file gives a shallow embedding, in Lean 4, of the algorithmic engine of
the simulator: the flat backing memory (`PhysicalMemory`), the set-associative
cache (`CacheLine`, `CacheLevel`, `CacheHierarchy`), the demand-paged virtual
memory (`PageTableEntry`, `VirtualMemory`), and the two heap allocators
(`StandardAllocator`, `BuddyAllocator`).  Each definition is translated
directly from the corresponding C++ source file; machine integers (`uint64_t`,
`size_t`, `uint8_t`) are modelled as `Nat`, with an explicit `% 2 ^ 64`
wherever the C++ code relies on unsigned wraparound.  Fallible operations
(`Result<T>` in the source) return `Option`.

The theorems at the end of the file settle the behavioural claims about the
engine: write-through behaviour of the caches, counter invariants, page
replacement, splitting policies and allocation identifiers.
-/

namespace MemSimX

/-- Width of the C++ `Address`/`size_t` type used by the simulator. -/
def UINT64_MOD : Nat := 2 ^ 64

/-- Width of the C++ `BlockId` type (`uint32_t`, common/types.h): the
allocators' `next_block_id_++` wraps modulo this. -/
def UINT32_MOD : Nat := 2 ^ 32

/-! ## PhysicalMemory (src/memory/physical_memory.cpp)

The C++ class keeps a `std::vector<uint8_t>` of fixed size plus an advisory
`used_size` counter.  The byte store is modelled as a function `Nat → Nat`
together with the fixed `total_size`; the advisory counter is kept by the
allocator models (it is only ever written through `updateUsedSize`). -/

structure PhysicalMemory where
  bytes : Nat → Nat
  total_size : Nat

/-- `PhysicalMemory::PhysicalMemory(size)`: a zero-filled store of `size` bytes. -/
def PhysicalMemory.init (size : Nat) : PhysicalMemory :=
  { bytes := fun _ => 0, total_size := size }

/-- `PhysicalMemory::isValidRange(addr, size)`.  The additions happen on
`uint64_t`, hence the explicit wraparound: `addr + size < addr` in C++ means
the wrapped sum is below `addr`. -/
def PhysicalMemory.isValidRange (m : PhysicalMemory) (addr size : Nat) : Bool :=
  if m.total_size ≤ addr then false
  else if size = 0 then true
  else if (addr + size) % UINT64_MOD < addr then false
  else decide ((addr + size) % UINT64_MOD ≤ m.total_size)

/-- `PhysicalMemory::write(addr, data)` (single byte, `Result<void>`). -/
def PhysicalMemory.writeByte (m : PhysicalMemory) (addr data : Nat) :
    Option PhysicalMemory :=
  if m.total_size ≤ addr then none
  else some { m with bytes := fun x => if x = addr then data else m.bytes x }

/-- `PhysicalMemory::read(addr)` (single byte, `Result<uint8_t>`). -/
def PhysicalMemory.readByte (m : PhysicalMemory) (addr : Nat) : Option Nat :=
  if m.total_size ≤ addr then none
  else some (m.bytes addr)

/-- `PhysicalMemory::write(addr, data, size)`: bulk write, `bool` result.
The source copies `size` bytes with `memcpy` after the range check. -/
def PhysicalMemory.writeRange (m : PhysicalMemory) (addr : Nat) (src : List Nat) :
    Bool × PhysicalMemory :=
  if m.isValidRange addr src.length then
    (true, { m with bytes := fun x =>
        if addr ≤ x ∧ x < addr + src.length then src.getD (x - addr) 0 else m.bytes x })
  else (false, m)

/-- `PhysicalMemory::read(addr, buffer, size)`: bulk read, `bool` result
(successful reads return the copied bytes). -/
def PhysicalMemory.readRange (m : PhysicalMemory) (addr len : Nat) :
    Option (List Nat) :=
  if m.isValidRange addr len then
    some ((List.range len).map fun i => m.bytes (addr + i))
  else none

/-- `PhysicalMemory::clear()`. -/
def PhysicalMemory.clear (m : PhysicalMemory) : PhysicalMemory :=
  { m with bytes := fun _ => 0 }

theorem PhysicalMemory.writeByte_isSome (m : PhysicalMemory) (a v : Nat) :
    (m.writeByte a v).isSome = true ↔ a < m.total_size := by
  unfold PhysicalMemory.writeByte
  by_cases h : m.total_size ≤ a
  · simp [h]
  · simp [h]
    omega

theorem PhysicalMemory.writeByte_eq_some {m m' : PhysicalMemory} {a v : Nat}
    (h : m.writeByte a v = some m') :
    m'.total_size = m.total_size ∧ m'.bytes a = v ∧ a < m.total_size := by
  unfold PhysicalMemory.writeByte at h
  by_cases hb : m.total_size ≤ a
  · simp [hb] at h
  · simp [hb] at h
    subst h
    refine ⟨rfl, by simp, by omega⟩

theorem PhysicalMemory.readByte_of_lt {m : PhysicalMemory} {a : Nat}
    (h : a < m.total_size) : m.readByte a = some (m.bytes a) := by
  unfold PhysicalMemory.readByte
  simp [Nat.not_le.mpr h]

/-! ## CacheLine and CacheLevel (src/cache/cache_line.h, cache_level.cpp) -/

/-- `CacheLine`: one way of one set.  `data` has `block_size` entries. -/
structure CacheLine where
  valid : Bool
  tag : Nat
  data : List Nat
  insertion_order : Nat
  last_access_time : Nat
  access_count : Nat
deriving DecidableEq

instance : Inhabited CacheLine := ⟨⟨false, 0, [], 0, 0, 0⟩⟩

/-- `CacheLine::CacheLine(block_size)`: an invalid, zero-filled line. -/
def CacheLine.mkEmpty (block_size : Nat) : CacheLine :=
  ⟨false, 0, List.replicate block_size 0, 0, 0, 0⟩

/-- `CacheLine::invalidate()`: clears everything except the data payload. -/
def CacheLine.invalidate (l : CacheLine) : CacheLine :=
  { l with valid := false, tag := 0, insertion_order := 0,
           last_access_time := 0, access_count := 0 }

/-- `CacheLine::recordAccess(current_time)`. -/
def CacheLine.recordAccess (l : CacheLine) (current_time : Nat) : CacheLine :=
  { l with last_access_time := current_time, access_count := l.access_count + 1 }

inductive CachePolicy where
  | FIFO
  | LRU
  | LFU
deriving DecidableEq

structure CacheStats where
  hits : Nat
  misses : Nat
  accesses : Nat
deriving DecidableEq

/-- `CacheLevel::calculateBits(value)` (also `VirtualMemory::calculateBits`):
counts the bits of `value` by repeated right shift.  The loop is bounded by
`value` itself (which the halving can never exhaust), keeping the recursion
structural. -/
def calcBitsGo : Nat → Nat → Nat
  | 0, _ => 0
  | fuel + 1, value => if value = 0 then 0 else calcBitsGo fuel (value / 2) + 1

def calculateBits (value : Nat) : Nat :=
  calcBitsGo value value

/-- `CacheLevel`: `num_sets × associativity` lines plus counters and the
logical clock.  The backing `PhysicalMemory*` is passed to each operation
explicitly (the hierarchy shares one store between both levels). -/
structure CacheLevel where
  num_sets : Nat
  associativity : Nat
  block_size : Nat
  offset_bits : Nat
  index_bits : Nat
  policy : CachePolicy
  sets : List (List CacheLine)
  stats : CacheStats
  global_time : Nat
deriving DecidableEq

/-- `CacheLevel::CacheLevel(level, num_sets, associativity, block_size,
policy, memory)` (the `level` label and the power-of-two validation are
construction-time only and carry no algorithmic content). -/
def CacheLevel.init (num_sets associativity block_size : Nat)
    (policy : CachePolicy) : CacheLevel :=
  { num_sets := num_sets, associativity := associativity,
    block_size := block_size,
    offset_bits := calculateBits (block_size - 1),
    index_bits := calculateBits (num_sets - 1),
    policy := policy,
    sets := List.replicate num_sets
      (List.replicate associativity (CacheLine.mkEmpty block_size)),
    stats := ⟨0, 0, 0⟩, global_time := 0 }

/-- `CacheLevel::parseAddress` fills three out-parameters; each becomes its
own projection.  `offset` is the low `offset_bits`, `set_index` the next
`index_bits`, `tag` the remaining upper bits. -/
def CacheLevel.offsetOf (c : CacheLevel) (address : Nat) : Nat :=
  address &&& ((1 <<< c.offset_bits) - 1)

def CacheLevel.setIndexOf (c : CacheLevel) (address : Nat) : Nat :=
  (address >>> c.offset_bits) &&& ((1 <<< c.index_bits) - 1)

def CacheLevel.tagOf (c : CacheLevel) (address : Nat) : Nat :=
  address >>> (c.offset_bits + c.index_bits)

/-- Index of the first element satisfying `p` (the forward scans of
`findLine`, `findFreeFrame`, `selectVictim` and the id/address map lookups). -/
def findIdxP {α : Type} (p : α → Bool) : List α → Option Nat
  | [] => none
  | a :: l => if p a then some 0 else (findIdxP p l).map (· + 1)

/-- `CacheLevel::findLine(set_index, tag)`: index of the first valid line with
a matching tag (the C++ function returns a pointer into the set). -/
def findLineIdx (set : List CacheLine) (tag : Nat) : Option Nat :=
  findIdxP (fun l => l.valid && l.tag == tag) set

/-- The victim scan shared by the three policies: the C++ loop starts at way 1
with `victim = 0` and the key of way 0 as the running minimum, replacing the
victim on strictly smaller keys. -/
def scanMinGo (key : CacheLine → Nat) : List CacheLine → Nat → Nat → Nat → Nat
  | [], _, victim, _ => victim
  | l :: ls, i, victim, m =>
      if key l < m then scanMinGo key ls (i + 1) i (key l)
      else scanMinGo key ls (i + 1) victim m

def minIdxBy (key : CacheLine → Nat) (set : List CacheLine) : Nat :=
  match set with
  | [] => 0
  | l :: ls => scanMinGo key ls 1 0 (key l)

/-- `CacheLevel::selectVictim(set_index)` works entirely inside
`sets_[set_index]`: first invalid way, else the policy-specific minimum
(ties broken by lowest way index). -/
def selectVictimIn (set : List CacheLine) (policy : CachePolicy) : Nat :=
  match findIdxP (fun l => !l.valid) set with
  | some i => i
  | none =>
      match policy with
      | CachePolicy.FIFO => minIdxBy (fun l => l.insertion_order) set
      | CachePolicy.LRU => minIdxBy (fun l => l.last_access_time) set
      | CachePolicy.LFU => minIdxBy (fun l => l.access_count) set

/-- Replace the line of way `way` in set `set_index`. -/
def CacheLevel.setLine (c : CacheLevel) (set_index way : Nat) (line : CacheLine) :
    CacheLevel :=
  { c with sets := c.sets.set set_index ((c.sets.getD set_index []).set way line) }

/-- `CacheLevel::loadBlock(address, tag, set_index, way_index)`: fill the way
with the aligned block from memory (failed byte reads yield 0) and stamp the
metadata with the current logical time. -/
def CacheLevel.loadBlock (c : CacheLevel) (mem : PhysicalMemory)
    (address tag set_index way_index : Nat) : CacheLevel :=
  let block_address := (address >>> c.offset_bits) <<< c.offset_bits
  let data := (List.range c.block_size).map fun i =>
    (mem.readByte (block_address + i)).getD 0
  c.setLine set_index way_index
    ⟨true, tag, data, c.global_time, c.global_time, 1⟩

/-- `CacheLevel::read(address)`.  The C++ result is always `Ok`; the model
returns the byte and the updated level. -/
def CacheLevel.read (c0 : CacheLevel) (mem : PhysicalMemory) (address : Nat) :
    Nat × CacheLevel :=
  let tag := c0.tagOf address
  let set_index := c0.setIndexOf address
  let offset := c0.offsetOf address
  let c := { c0 with stats := { c0.stats with accesses := c0.stats.accesses + 1 },
                     global_time := c0.global_time + 1 }
  let set := c.sets.getD set_index []
  match findLineIdx set tag with
  | some i =>
      let line := set.getD i default
      let c := { c with stats := { c.stats with hits := c.stats.hits + 1 } }
      let c := c.setLine set_index i (line.recordAccess c.global_time)
      (line.data.getD offset 0, c)
  | none =>
      let c := { c with stats := { c.stats with misses := c.stats.misses + 1 } }
      let victim_way := selectVictimIn (c.sets.getD set_index []) c.policy
      let c := c.loadBlock mem address tag set_index victim_way
      let new_line := (c.sets.getD set_index []).getD victim_way default
      (new_line.data.getD offset 0, c)

/-- `CacheLevel::write(address, data)`: write-through.  The memory write comes
first; on failure the error is propagated with hits/misses untouched (but the
access counter and the clock already advanced). -/
def CacheLevel.write (c0 : CacheLevel) (mem : PhysicalMemory) (address data : Nat) :
    Bool × CacheLevel × PhysicalMemory :=
  let tag := c0.tagOf address
  let set_index := c0.setIndexOf address
  let offset := c0.offsetOf address
  let c := { c0 with stats := { c0.stats with accesses := c0.stats.accesses + 1 },
                     global_time := c0.global_time + 1 }
  match mem.writeByte address data with
  | none => (false, c, mem)
  | some mem' =>
      let set := c.sets.getD set_index []
      match findLineIdx set tag with
      | some i =>
          let line := set.getD i default
          let c := { c with stats := { c.stats with hits := c.stats.hits + 1 } }
          let line := { line with data := line.data.set offset data }
          let c := c.setLine set_index i (line.recordAccess c.global_time)
          (true, c, mem')
      | none =>
          let c := { c with stats := { c.stats with misses := c.stats.misses + 1 } }
          let victim_way := selectVictimIn (c.sets.getD set_index []) c.policy
          let c := c.loadBlock mem' address tag set_index victim_way
          let new_line := (c.sets.getD set_index []).getD victim_way default
          let c := c.setLine set_index victim_way
            { new_line with data := new_line.data.set offset data }
          (true, c, mem')

/-- `CacheLevel::contains(address)`: a `const` predicate. -/
def CacheLevel.contains (c : CacheLevel) (address : Nat) : Bool :=
  (c.sets.getD (c.setIndexOf address) []).any fun l =>
    l.valid && l.tag == c.tagOf address

/-- `CacheLevel::flush()`: invalidate every line. -/
def CacheLevel.flush (c : CacheLevel) : CacheLevel :=
  { c with sets := c.sets.map fun set => set.map CacheLine.invalidate }

/-! ## CacheHierarchy (src/cache/cache_hierarchy.cpp) -/

/-- `CacheHierarchy`: an L1 and an L2 over one shared backing store. -/
structure CacheHierarchy where
  l1 : CacheLevel
  l2 : CacheLevel
  memory : PhysicalMemory
  memory_access_count : Nat

/-- `CacheHierarchy::CacheHierarchy(memory, l1 config, l2 config)`. -/
def CacheHierarchy.init (mem : PhysicalMemory)
    (l1_sets l1_assoc l1_block : Nat) (l1_policy : CachePolicy)
    (l2_sets l2_assoc l2_block : Nat) (l2_policy : CachePolicy) :
    CacheHierarchy :=
  { l1 := CacheLevel.init l1_sets l1_assoc l1_block l1_policy,
    l2 := CacheLevel.init l2_sets l2_assoc l2_block l2_policy,
    memory := mem, memory_access_count := 0 }

/-- `CacheHierarchy::write(address, data)`: write-through — memory first, then
L1 if it holds the address, then L2 likewise.  The results of the level writes
are discarded, exactly as in the source. -/
def CacheHierarchy.write (h : CacheHierarchy) (address data : Nat) :
    Bool × CacheHierarchy :=
  match h.memory.writeByte address data with
  | none => (false, h)
  | some mem1 =>
      let (l1', mem2) :=
        if h.l1.contains address then
          let r := h.l1.write mem1 address data
          (r.2.1, r.2.2)
        else (h.l1, mem1)
      let (l2', mem3) :=
        if h.l2.contains address then
          let r := h.l2.write mem2 address data
          (r.2.1, r.2.2)
        else (h.l2, mem2)
      (true, { h with l1 := l1', l2 := l2', memory := mem3 })

/-- `CacheHierarchy::flush()`: invalidates both levels; the memory-access
counter and the backing store are untouched. -/
def CacheHierarchy.flush (h : CacheHierarchy) : CacheHierarchy :=
  { h with l1 := h.l1.flush, l2 := h.l2.flush }

/-! ## Operation sequences over one cache level -/

inductive CacheOp where
  | read (address : Nat)
  | write (address data : Nat)
  | contains (address : Nat)
  | flush

/-- One observed operation on a `CacheLevel` sharing a byte store.  A
`contains` query calls the `const` predicate and discards the answer. -/
def CacheLevel.step (s : CacheLevel × PhysicalMemory) (op : CacheOp) :
    CacheLevel × PhysicalMemory :=
  match op with
  | CacheOp.read a => let r := s.1.read s.2 a; (r.2, s.2)
  | CacheOp.write a v => let r := s.1.write s.2 a v; (r.2.1, r.2.2)
  | CacheOp.contains _ => s
  | CacheOp.flush => (s.1.flush, s.2)

def runCache (s : CacheLevel × PhysicalMemory) (ops : List CacheOp) :
    CacheLevel × PhysicalMemory :=
  ops.foldl CacheLevel.step s

/-! ## PageTableEntry and VirtualMemory
(src/virtual_memory/page_table_entry.h, virtual_memory.cpp) -/

structure PageTableEntry where
  valid : Bool
  frame_number : Nat
  dirty : Bool
  referenced : Bool
  load_time : Nat
  last_access : Nat
deriving DecidableEq

/-- `PageTableEntry::PageTableEntry()` and `invalidate()` both produce this
all-clear entry. -/
instance : Inhabited PageTableEntry := ⟨⟨false, 0, false, false, 0, 0⟩⟩

/-- `PageTableEntry::recordAccess(current_time)`. -/
def PageTableEntry.recordAccess (p : PageTableEntry) (current_time : Nat) :
    PageTableEntry :=
  { p with referenced := true, last_access := current_time }

inductive PageReplacementPolicy where
  | FIFO
  | LRU
  | CLOCK
deriving DecidableEq

structure VMStats where
  page_faults : Nat
  page_hits : Nat
  total_accesses : Nat
deriving DecidableEq

structure VirtualMemory where
  num_virtual_pages : Nat
  num_physical_frames : Nat
  page_size : Nat
  offset_bits : Nat
  policy : PageReplacementPolicy
  page_table : List PageTableEntry
  frame_allocated : List Bool
  fifo_queue : List Nat
  clock_hand : Nat
  global_time : Nat
  stats : VMStats

/-- `VirtualMemory::VirtualMemory(memory, num_virtual_pages,
num_physical_frames, page_size, policy)` (the constructor validation —
power-of-two page size, frames ≤ pages, memory capacity — throws and is
construction-time only). -/
def VirtualMemory.init (num_virtual_pages num_physical_frames page_size : Nat)
    (policy : PageReplacementPolicy) : VirtualMemory :=
  { num_virtual_pages := num_virtual_pages,
    num_physical_frames := num_physical_frames,
    page_size := page_size,
    offset_bits := calculateBits (page_size - 1),
    policy := policy,
    page_table := List.replicate num_virtual_pages default,
    frame_allocated := List.replicate num_physical_frames false,
    fifo_queue := [], clock_hand := 0, global_time := 0,
    stats := ⟨0, 0, 0⟩ }

/-- `VirtualMemory::parseAddress` fills two out-parameters; each becomes its
own projection: the page number is the address shifted past `offset_bits`,
the offset the low `offset_bits`. -/
def VirtualMemory.pageNumberOf (vm : VirtualMemory) (virtual_addr : Nat) : Nat :=
  virtual_addr >>> vm.offset_bits

def VirtualMemory.pageOffsetOf (vm : VirtualMemory) (virtual_addr : Nat) : Nat :=
  virtual_addr &&& ((1 <<< vm.offset_bits) - 1)

/-- `VirtualMemory::constructPhysicalAddress(frame_number, offset)`. -/
def VirtualMemory.constructPhysicalAddress (vm : VirtualMemory)
    (frame_number offset : Nat) : Nat :=
  (frame_number <<< vm.offset_bits) ||| offset

/-- `VirtualMemory::findFreeFrame()`: the lowest-numbered free frame. -/
def VirtualMemory.findFreeFrame (vm : VirtualMemory) : Option Nat :=
  findIdxP (fun b => !b) vm.frame_allocated

/-- The LRU victim scan: `victim = 0`, `min_time = UINT64_MAX`, replace on a
strictly smaller `last_access` of a valid entry. -/
def lruScanGo : List PageTableEntry → Nat → Nat → Nat → Nat
  | [], _, victim, _ => victim
  | p :: ps, i, victim, m =>
      if p.valid && decide (p.last_access < m) then lruScanGo ps (i + 1) i p.last_access
      else lruScanGo ps (i + 1) victim m

/-- The clock scan: bounded by `2 · num_vpages` iterations; valid unreferenced
entry at the hand is the victim (hand advanced past it), referenced entries
lose their bit, invalid slots are skipped. -/
def clockScanGo (n : Nat) : Nat → VirtualMemory → Option Nat × VirtualMemory
  | 0, vm => (none, vm)
  | fuel + 1, vm =>
      let pte := vm.page_table.getD vm.clock_hand default
      if pte.valid && !pte.referenced then
        (some vm.clock_hand, { vm with clock_hand := (vm.clock_hand + 1) % n })
      else
        let vm :=
          if pte.valid then
            { vm with page_table :=
                vm.page_table.set vm.clock_hand { pte with referenced := false } }
          else vm
        clockScanGo n fuel { vm with clock_hand := (vm.clock_hand + 1) % n }

/-- Fallback of the FIFO and clock selectors: the first valid page, else 0. -/
def firstValidIdx (pt : List PageTableEntry) : Nat :=
  (findIdxP (fun p => p.valid) pt).getD 0

/-- `VirtualMemory::selectVictimPage()`.  Only the clock policy mutates state
(the hand and the referenced bits). -/
def VirtualMemory.selectVictimPage (vm : VirtualMemory) : Nat × VirtualMemory :=
  match vm.policy with
  | PageReplacementPolicy.FIFO =>
      match vm.fifo_queue with
      | [] => (firstValidIdx vm.page_table, vm)
      | v :: _ => (v, vm)
  | PageReplacementPolicy.LRU =>
      (lruScanGo vm.page_table 0 0 (UINT64_MOD - 1), vm)
  | PageReplacementPolicy.CLOCK =>
      match clockScanGo vm.num_virtual_pages (vm.num_virtual_pages * 2) vm with
      | (some v, vm') => (v, vm')
      | (none, vm') => (firstValidIdx vm'.page_table, vm')

/-- `VirtualMemory::evictPage(page_number)`.  The dirty write-back is a no-op
on the backing store (`writePageToDisk` does nothing). -/
def VirtualMemory.evictPage (vm : VirtualMemory) (page_number : Nat) :
    VirtualMemory :=
  let pte := vm.page_table.getD page_number default
  if !pte.valid then vm
  else
    let fa := vm.frame_allocated.set pte.frame_number false
    let pt := vm.page_table.set page_number default
    let q :=
      if vm.policy = PageReplacementPolicy.FIFO ∧ vm.fifo_queue ≠ [] then
        vm.fifo_queue.tail
      else vm.fifo_queue
    { vm with frame_allocated := fa, page_table := pt, fifo_queue := q }

/-- `VirtualMemory::loadPageFromDisk(page_number, frame_number)`: fill the
frame with the deterministic pattern `(page · page_size + i) mod 256`; the
byte writes discard their results like the C++ call does. -/
def VirtualMemory.loadPageFromDisk (vm : VirtualMemory) (mem : PhysicalMemory)
    (page_number frame_number : Nat) : PhysicalMemory :=
  let frame_start := frame_number * vm.page_size
  (List.range vm.page_size).foldl
    (fun m i =>
      (m.writeByte (frame_start + i) ((page_number * vm.page_size + i) % 256)).getD m)
    mem

/-- `VirtualMemory::handlePageFault(page_number)`: free frame if any, else
evict a victim and retry; then fill the frame from "disk", validate the entry
and (under FIFO) enqueue the page. -/
def VirtualMemory.handlePageFault (vm : VirtualMemory) (mem : PhysicalMemory)
    (page_number : Nat) : Option Nat × VirtualMemory × PhysicalMemory :=
  let acquired : Option Nat × VirtualMemory :=
    match vm.findFreeFrame with
    | some f => (some f, vm)
    | none =>
        let (victim_page, vm) := vm.selectVictimPage
        let vm := vm.evictPage victim_page
        match vm.findFreeFrame with
        | some f => (some f, vm)
        | none => (none, vm)
  match acquired with
  | (none, vm) => (none, vm, mem)
  | (some frame_number, vm) =>
      let vm := { vm with frame_allocated := vm.frame_allocated.set frame_number true }
      let mem := vm.loadPageFromDisk mem page_number frame_number
      let pte : PageTableEntry :=
        ⟨true, frame_number, false, true, vm.global_time, vm.global_time⟩
      let vm := { vm with page_table := vm.page_table.set page_number pte }
      let vm :=
        if vm.policy = PageReplacementPolicy.FIFO then
          { vm with fifo_queue := vm.fifo_queue ++ [page_number] }
        else vm
      (some frame_number, vm, mem)

/-- `VirtualMemory::translate(virtual_addr)`. -/
def VirtualMemory.translate (vm0 : VirtualMemory) (mem : PhysicalMemory)
    (virtual_addr : Nat) : Option Nat × VirtualMemory × PhysicalMemory :=
  let page_number := vm0.pageNumberOf virtual_addr
  let offset := vm0.pageOffsetOf virtual_addr
  let vm := { vm0 with
    stats := { vm0.stats with total_accesses := vm0.stats.total_accesses + 1 },
    global_time := vm0.global_time + 1 }
  if vm.num_virtual_pages ≤ page_number then (none, vm, mem)
  else
    let pte := vm.page_table.getD page_number default
    if pte.valid then
      let vm := { vm with
        stats := { vm.stats with page_hits := vm.stats.page_hits + 1 },
        page_table := vm.page_table.set page_number
          (pte.recordAccess vm.global_time) }
      (some (vm.constructPhysicalAddress pte.frame_number offset), vm, mem)
    else
      let vm := { vm with
        stats := { vm.stats with page_faults := vm.stats.page_faults + 1 } }
      match vm.handlePageFault mem page_number with
      | (none, vm, mem) => (none, vm, mem)
      | (some frame, vm, mem) =>
          (some (vm.constructPhysicalAddress frame offset), vm, mem)

/-- `VirtualMemory::read(virtual_addr)`. -/
def VirtualMemory.read (vm : VirtualMemory) (mem : PhysicalMemory)
    (virtual_addr : Nat) : Option Nat × VirtualMemory × PhysicalMemory :=
  match vm.translate mem virtual_addr with
  | (none, vm, mem) => (none, vm, mem)
  | (some paddr, vm, mem) => (mem.readByte paddr, vm, mem)

/-- `VirtualMemory::write(virtual_addr, data)`: translate, set the dirty bit,
write through the backing store. -/
def VirtualMemory.write (vm : VirtualMemory) (mem : PhysicalMemory)
    (virtual_addr data : Nat) : Bool × VirtualMemory × PhysicalMemory :=
  match vm.translate mem virtual_addr with
  | (none, vm, mem) => (false, vm, mem)
  | (some paddr, vm, mem) =>
      let page_number := vm.pageNumberOf virtual_addr
      let pte := vm.page_table.getD page_number default
      let vm := { vm with
        page_table := vm.page_table.set page_number { pte with dirty := true } }
      match mem.writeByte paddr data with
      | none => (false, vm, mem)
      | some mem' => (true, vm, mem')

/-- `VirtualMemory::flush()`. -/
def VirtualMemory.flush (vm : VirtualMemory) : VirtualMemory :=
  { vm with page_table := vm.page_table.map fun _ => default,
            frame_allocated := vm.frame_allocated.map fun _ => false,
            fifo_queue := [], clock_hand := 0 }

inductive VMOp where
  | translate (vaddr : Nat)
  | read (vaddr : Nat)
  | write (vaddr data : Nat)
  | flush

def VirtualMemory.step (s : VirtualMemory × PhysicalMemory) (op : VMOp) :
    VirtualMemory × PhysicalMemory :=
  match op with
  | VMOp.translate a => let r := s.1.translate s.2 a; (r.2.1, r.2.2)
  | VMOp.read a => let r := s.1.read s.2 a; (r.2.1, r.2.2)
  | VMOp.write a v => let r := s.1.write s.2 a v; (r.2.1, r.2.2)
  | VMOp.flush => (s.1.flush, s.2)

def runVM (s : VirtualMemory × PhysicalMemory) (ops : List VMOp) :
    VirtualMemory × PhysicalMemory :=
  ops.foldl VirtualMemory.step s

/-! ## StandardAllocator
(src/allocator/memory_block.h, standard_allocator.cpp)

The C++ doubly linked list of `MemoryBlock` nodes is modelled as the list of
blocks in address order; `prev`/`next` pointers become list adjacency.  The
`allocated_blocks_` / `address_to_block_` maps always hold exactly the
non-free blocks keyed by id / start address, so lookups become scans for the
matching allocated block.  `physical_memory_->updateUsedSize` writes the
advisory counter modelled by the `used_size` field. -/

structure MemoryBlock where
  start_address : Nat
  size : Nat
  is_free : Bool
  id : Nat
deriving DecidableEq

inductive AllocatorType where
  | FIRST_FIT
  | BEST_FIT
  | WORST_FIT
deriving DecidableEq

structure StandardAllocator where
  strategy : AllocatorType
  blocks : List MemoryBlock
  next_block_id : Nat
  total_allocations : Nat
  failed_allocations : Nat
  total_deallocations : Nat
  requested_sizes : List (Nat × Nat)
  used_size : Nat
deriving DecidableEq

/-- `StandardAllocator::StandardAllocator(memory, type)`: one free block over
all of memory, ids starting at 1. -/
def StandardAllocator.init (total_size : Nat) (strategy : AllocatorType) :
    StandardAllocator :=
  { strategy := strategy, blocks := [⟨0, total_size, true, 0⟩],
    next_block_id := 1, total_allocations := 0, failed_allocations := 0,
    total_deallocations := 0, requested_sizes := [], used_size := 0 }

/-- FIRST_FIT scan of `StandardAllocator::findBlock`. -/
def firstFitIdx : List MemoryBlock → Nat → Option Nat
  | [], _ => none
  | b :: bs, s =>
      if b.is_free && decide (s ≤ b.size) then some 0
      else (firstFitIdx bs s).map (· + 1)

/-- BEST_FIT scan: `m` is the running minimum (`SIZE_MAX` initially); a
candidate becomes the victim iff no later candidate strictly undercuts it. -/
def bestFitIdx : List MemoryBlock → Nat → Nat → Option Nat
  | [], _, _ => none
  | b :: bs, s, m =>
      if b.is_free && decide (s ≤ b.size) && decide (b.size < m) then
        match bestFitIdx bs s b.size with
        | some j => some (j + 1)
        | none => some 0
      else (bestFitIdx bs s m).map (· + 1)

/-- WORST_FIT scan: `m` is the running maximum (0 initially). -/
def worstFitIdx : List MemoryBlock → Nat → Nat → Option Nat
  | [], _, _ => none
  | b :: bs, s, m =>
      if b.is_free && decide (s ≤ b.size) && decide (m < b.size) then
        match worstFitIdx bs s b.size with
        | some j => some (j + 1)
        | none => some 0
      else (worstFitIdx bs s m).map (· + 1)

/-- `StandardAllocator::findBlock(size)`: index of the selected free block
(reads only `strategy_` and the block list). -/
def findBlockIn (strategy : AllocatorType) (blocks : List MemoryBlock)
    (size : Nat) : Option Nat :=
  match strategy with
  | AllocatorType.FIRST_FIT => firstFitIdx blocks size
  | AllocatorType.BEST_FIT => bestFitIdx blocks size (UINT64_MOD - 1)
  | AllocatorType.WORST_FIT => worstFitIdx blocks size 0

/-- Insert an element after position `i` (the C++ code links the remainder
node between `block` and `block->next`). -/
def insertAt {α : Type} : List α → Nat → α → List α
  | l, 0, x => x :: l
  | [], _ + 1, x => [x]
  | b :: bs, i + 1, x => b :: insertAt bs i x

/-- `StandardAllocator::splitBlock(block, size)` with `MIN_SPLIT_SIZE = 1`:
split iff `block->size > size + 1`, resizing the block to `size` and linking
in a free remainder right after it. -/
def splitBlockList (blocks : List MemoryBlock) (i size : Nat) :
    List MemoryBlock :=
  match blocks.get? i with
  | none => blocks
  | some b =>
      if size + 1 < b.size then
        insertAt (blocks.set i { b with size := size }) (i + 1)
          ⟨b.start_address + size, b.size - size, true, 0⟩
      else blocks

/-- The `total_used` recomputation at the end of `allocate`/`deallocate`: the
sum of the sizes of all allocated blocks. -/
def sumAllocated (blocks : List MemoryBlock) : Nat :=
  blocks.foldl (fun acc b => if b.is_free then acc else acc + b.size) 0

/-- `StandardAllocator::allocate(size)`. -/
def StandardAllocator.allocate (a : StandardAllocator) (size : Nat) :
    Option Nat × StandardAllocator :=
  let a := { a with total_allocations := a.total_allocations + 1 }
  if size = 0 then
    (none, { a with failed_allocations := a.failed_allocations + 1 })
  else
    match findBlockIn a.strategy a.blocks size with
    | none => (none, { a with failed_allocations := a.failed_allocations + 1 })
    | some i =>
        let blocks := splitBlockList a.blocks i size
        let id := a.next_block_id
        let blocks :=
          match blocks.get? i with
          | some b => blocks.set i { b with is_free := false, id := id }
          | none => blocks
        (some id,
         { a with blocks := blocks, next_block_id := (id + 1) % UINT32_MOD,
                  requested_sizes := (id, size) :: a.requested_sizes,
                  used_size := sumAllocated blocks })

/-- The `while (block->next && block->next->is_free)` merge loop of
`coalesceBlock`, absorbing every following free block. -/
def absorbNext : MemoryBlock → List MemoryBlock → MemoryBlock × List MemoryBlock
  | b, [] => (b, [])
  | b, n :: rest =>
      if n.is_free then absorbNext { b with size := b.size + n.size } rest
      else (b, n :: rest)

/-- `StandardAllocator::coalesceBlock(block)` for the block at index `i`:
absorb following free blocks, then be absorbed by a free predecessor. -/
def coalesceAt : List MemoryBlock → Nat → List MemoryBlock
  | [], _ => []
  | b :: bs, 0 =>
      let (b', rest) := absorbNext b bs
      b' :: rest
  | p :: bs, 1 =>
      match bs with
      | [] => [p]
      | b :: rest =>
          let (b', rest') := absorbNext b rest
          if p.is_free then { p with size := p.size + b'.size } :: rest'
          else p :: b' :: rest'
  | p :: bs, i + 2 => p :: coalesceAt bs (i + 1)

/-- Lookup of `allocated_blocks_`: the allocated block carrying `id`. -/
def findAllocatedIdx (blocks : List MemoryBlock) (id : Nat) : Option Nat :=
  findIdxP (fun b => !b.is_free && b.id == id) blocks

/-- `StandardAllocator::deallocate(block_id)`. -/
def StandardAllocator.deallocate (a : StandardAllocator) (block_id : Nat) :
    Bool × StandardAllocator :=
  match findAllocatedIdx a.blocks block_id with
  | none => (false, a)
  | some i =>
      let blocks :=
        match a.blocks.get? i with
        | some b => a.blocks.set i { b with is_free := true, id := 0 }
        | none => a.blocks
      let blocks := coalesceAt blocks i
      (true,
       { a with blocks := blocks,
                requested_sizes := a.requested_sizes.filter fun p => p.1 ≠ block_id,
                used_size := sumAllocated blocks,
                total_deallocations := a.total_deallocations + 1 })

/-- `StandardAllocator::deallocateByAddress(address)`: resolve the allocated
block at exactly that start address, then deallocate by its id. -/
def StandardAllocator.deallocateByAddress (a : StandardAllocator)
    (address : Nat) : Bool × StandardAllocator :=
  match a.blocks.find? (fun b => !b.is_free && b.start_address == address) with
  | none => (false, a)
  | some b => a.deallocate b.id

inductive AllocOp where
  | alloc (size : Nat)
  | free (id : Nat)
  | freeAddr (address : Nat)

/-- Run a sequence of allocator operations, collecting the ids returned by
successful `allocate` calls in order. -/
def runStd : StandardAllocator → List AllocOp → StandardAllocator × List Nat
  | a, [] => (a, [])
  | a, AllocOp.alloc s :: ops =>
      match a.allocate s with
      | (some id, a') => let (a'', ids) := runStd a' ops; (a'', id :: ids)
      | (none, a') => runStd a' ops
  | a, AllocOp.free id :: ops => runStd (a.deallocate id).2 ops
  | a, AllocOp.freeAddr addr :: ops => runStd (a.deallocateByAddress addr).2 ops

/-! ## BuddyAllocator (src/allocator/buddy_allocator.cpp)

`free_lists_` is a `std::map<size_t, std::list<BuddyBlock*>>`; it is modelled
as a function from size class to the list of start addresses of the free
blocks in that class, in list order (`findFreeBlock` takes the front,
`addToFreeList` pushes to the back, `removeFromFreeList` removes the node,
which is the first occurrence of its address).  The recursive
`splitBlock(current_size, target_size)` climbs to a larger class when the
current one is empty and splits on the way back down; the Lean model adds a
fuel argument (`2 · max_block_size + 2`, more than the recursion can ever
consume, see `splitGo_none_of_le` and `splitGo_isSome`) to make the recursion
structural. -/

structure BuddyAllocator where
  min_block_size : Nat
  max_block_size : Nat
  free_lists : Nat → List Nat
  allocated_blocks : List (Nat × Nat × Nat)
  address_to_block : List (Nat × Nat)
  requested_sizes : List (Nat × Nat)
  next_block_id : Nat
  total_allocations : Nat
  failed_allocations : Nat
  total_deallocations : Nat
  used_size : Nat

/-- `BuddyAllocator::BuddyAllocator(memory, min_block_size)`: one free block
covering all of memory (the power-of-two validation throws at construction
and is not part of the operational model). -/
def BuddyAllocator.init (total_size min_block_size : Nat) : BuddyAllocator :=
  { min_block_size := min_block_size, max_block_size := total_size,
    free_lists := fun s => if s = total_size then [0] else [],
    allocated_blocks := [], address_to_block := [], requested_sizes := [],
    next_block_id := 1, total_allocations := 0, failed_allocations := 0,
    total_deallocations := 0, used_size := 0 }

/-- `BuddyAllocator::isPowerOfTwo(n)`. -/
def isPowerOfTwo (n : Nat) : Bool :=
  decide (0 < n) && (n &&& (n - 1)) == 0

/-- `BuddyAllocator::roundUpToPowerOfTwo(size)`: the doubling loop, with the
request itself as (never exhausted) fuel. -/
def roundUpGo (size : Nat) : Nat → Nat → Nat
  | 0, power => power
  | fuel + 1, power => if power < size then roundUpGo size fuel (power * 2) else power

def roundUpToPowerOfTwo (size : Nat) : Nat :=
  if size = 0 then 1
  else if isPowerOfTwo size then size
  else roundUpGo size size 1

/-- `BuddyAllocator::getBuddyAddress(addr, size)`. -/
def BuddyAllocator.getBuddyAddress (addr size : Nat) : Nat :=
  addr ^^^ size

/-- `BuddyAllocator::findFreeBlock(size)`: the front of the free list of that
exact size class. -/
def findFreeBlock (fl : Nat → List Nat) (size : Nat) : Option Nat :=
  (fl size).head?

/-- `BuddyAllocator::removeFromFreeList(block)`. -/
def removeFromFreeList (fl : Nat → List Nat) (size addr : Nat) :
    Nat → List Nat :=
  fun s => if s = size then (fl size).erase addr else fl s

/-- `BuddyAllocator::addToFreeList(block)` (`push_back`). -/
def addToFreeList (fl : Nat → List Nat) (size addr : Nat) : Nat → List Nat :=
  fun s => if s = size then fl size ++ [addr] else fl s

/-- `BuddyAllocator::splitBlock(current_size, target_size)`, fuelled.  Both
branches first try the current size class; an empty class at or above
`max_block_size` fails, a smaller empty class climbs, and a hit above the
target splits into the two buddies before descending. -/
def splitGo (max : Nat) : Nat → Nat → Nat → (Nat → List Nat) →
    Option Nat × (Nat → List Nat)
  | 0, _, _, fl => (none, fl)
  | fuel + 1, current, target, fl =>
      if current = target then
        match findFreeBlock fl current with
        | some addr => (some addr, removeFromFreeList fl current addr)
        | none =>
            if max ≤ current then (none, fl)
            else splitGo max fuel (current * 2) target fl
      else
        match findFreeBlock fl current with
        | none =>
            if max ≤ current then (none, fl)
            else splitGo max fuel (current * 2) target fl
        | some addr =>
            let fl := removeFromFreeList fl current addr
            let half := current / 2
            let fl := addToFreeList fl half addr
            let fl := addToFreeList fl half (addr + half)
            splitGo max fuel half target fl

def BuddyAllocator.splitBlock (a : BuddyAllocator) (target : Nat) :
    Option Nat × (Nat → List Nat) :=
  splitGo a.max_block_size (2 * a.max_block_size + 2) target target a.free_lists

/-- `BuddyAllocator::allocate(size)`. -/
def BuddyAllocator.allocate (a : BuddyAllocator) (size : Nat) :
    Option Nat × BuddyAllocator :=
  let a := { a with total_allocations := a.total_allocations + 1 }
  if size = 0 then
    (none, { a with failed_allocations := a.failed_allocations + 1 })
  else
    let rounded := roundUpToPowerOfTwo size
    let actual_size := if rounded < a.min_block_size then a.min_block_size else rounded
    if a.max_block_size < actual_size then
      (none, { a with failed_allocations := a.failed_allocations + 1 })
    else
      match a.splitBlock actual_size with
      | (none, fl) =>
          (none, { a with free_lists := fl,
                          failed_allocations := a.failed_allocations + 1 })
      | (some addr, fl) =>
          let id := a.next_block_id
          let allocated := (id, addr, actual_size) :: a.allocated_blocks
          (some id,
           { a with free_lists := fl, allocated_blocks := allocated,
                    address_to_block := (addr, id) :: a.address_to_block,
                    requested_sizes := (id, size) :: a.requested_sizes,
                    next_block_id := (id + 1) % UINT32_MOD,
                    used_size := allocated.foldl (fun acc b => acc + b.2.2) 0 })

/-- `BuddyAllocator::getBlockAddress(block_id)`. -/
def BuddyAllocator.getBlockAddress (a : BuddyAllocator) (block_id : Nat) :
    Option Nat :=
  (a.allocated_blocks.find? fun b => b.1 == block_id).map fun b => b.2.1

/-! ## Supporting lemmas -/

theorem isValidRange_iff (m : PhysicalMemory) (addr size : Nat)
    (_ha : addr < UINT64_MOD) (hs : size < UINT64_MOD)
    (ht : m.total_size < UINT64_MOD) :
    m.isValidRange addr size = true ↔
      addr < m.total_size ∧ (size = 0 ∨ addr + size ≤ m.total_size) := by
  unfold PhysicalMemory.isValidRange
  by_cases h1 : m.total_size ≤ addr
  · simp [h1]
  · by_cases h2 : size = 0
    · simp [h1, h2]
      omega
    · by_cases h3 : addr + size < UINT64_MOD
      · rw [Nat.mod_eq_of_lt h3]
        simp [h1, h2]
        omega
      · have hm : (addr + size) % UINT64_MOD = addr + size - UINT64_MOD := by
          rw [Nat.mod_eq_sub_mod (Nat.le_of_not_lt h3), Nat.mod_eq_of_lt]
          omega
        rw [hm]
        simp [h1, h2]
        omega

theorem writeRange_fst (m : PhysicalMemory) (addr : Nat) (src : List Nat) :
    (m.writeRange addr src).1 = m.isValidRange addr src.length := by
  unfold PhysicalMemory.writeRange
  by_cases h : m.isValidRange addr src.length = true
  · simp [h]
  · simp [Bool.not_eq_true] at h
    simp [h]

theorem readRange_isSome (m : PhysicalMemory) (addr len : Nat) :
    (m.readRange addr len).isSome = m.isValidRange addr len := by
  unfold PhysicalMemory.readRange
  by_cases h : m.isValidRange addr len = true
  · simp [h]
  · simp [Bool.not_eq_true] at h
    simp [h]

theorem findIdxP_lt_length {α : Type} {p : α → Bool} :
    ∀ {l : List α} {i : Nat}, findIdxP p l = some i → i < l.length := by
  intro l
  induction l with
  | nil => intro i h; simp [findIdxP] at h
  | cons a l ih =>
      intro i h
      rw [findIdxP] at h
      by_cases hp : p a
      · rw [if_pos hp] at h
        cases h
        simp
      · rw [if_neg hp] at h
        cases hmap : findIdxP p l with
        | none => rw [hmap] at h; simp at h
        | some j =>
            rw [hmap] at h
            simp at h
            subst h
            have := ih hmap
            simp only [List.length_cons]
            omega

theorem scanMinGo_lt (key : CacheLine → Nat) :
    ∀ (ls : List CacheLine) (i victim m n : Nat), victim < n →
      i + ls.length ≤ n → scanMinGo key ls i victim m < n := by
  intro ls
  induction ls with
  | nil => intro i victim m n hv _; simpa [scanMinGo] using hv
  | cons l ls ih =>
      intro i victim m n hv hlen
      simp only [List.length_cons] at hlen
      simp only [scanMinGo]
      by_cases h : key l < m
      · rw [if_pos h]
        exact ih (i + 1) i (key l) n (by omega) (by omega)
      · rw [if_neg h]
        exact ih (i + 1) victim m n hv (by omega)

theorem minIdxBy_lt (key : CacheLine → Nat) (set : List CacheLine)
    (h : 0 < set.length) : minIdxBy key set < set.length := by
  match set with
  | [] => simp at h
  | l :: ls =>
      simp only [minIdxBy]
      exact scanMinGo_lt key ls 1 0 (key l) (l :: ls).length (by simp)
        (by simp only [List.length_cons]; omega)

theorem selectVictimIn_lt (set : List CacheLine) (policy : CachePolicy)
    (h : 0 < set.length) : selectVictimIn set policy < set.length := by
  unfold selectVictimIn
  cases hf : findIdxP (fun l => !l.valid) set with
  | some i =>
      exact findIdxP_lt_length hf
  | none =>
      cases hp : policy
      all_goals exact minIdxBy_lt _ _ h

theorem getD_set_self {α : Type} :
    ∀ (l : List α) (i : Nat) (x d : α), i < l.length → (l.set i x).getD i d = x := by
  intro l
  induction l with
  | nil => intro i x d h; simp at h
  | cons a l ih =>
      intro i x d h
      cases i with
      | zero => simp
      | succ j => simpa using ih j x d (by simpa using h)

theorem mem_set_self {α : Type} :
    ∀ (l : List α) (i : Nat) (x : α), i < l.length → x ∈ l.set i x := by
  intro l
  induction l with
  | nil => intro i x h; simp at h
  | cons a l ih =>
      intro i x h
      cases i with
      | zero => simp
      | succ j => simpa using Or.inr (ih j x (by simpa using h))

theorem contains_setLine_self (c : CacheLevel) (address si w : Nat)
    (line : CacheLine)
    (hidx : si = c.setIndexOf address)
    (hsi : si < c.sets.length)
    (hw : w < (c.sets.getD si []).length)
    (hv : line.valid = true)
    (ht : line.tag = c.tagOf address) :
    (c.setLine si w line).contains address = true := by
  subst hidx
  unfold CacheLevel.contains CacheLevel.setLine
  simp only [CacheLevel.setIndexOf, CacheLevel.tagOf] at hsi hw ht ⊢
  rw [getD_set_self _ _ _ _ hsi]
  rw [List.any_eq_true]
  exact ⟨line, mem_set_self _ _ _ hw, by simp [hv, ht]⟩


theorem insertAt_set_comm {α : Type} :
    ∀ (l : List α) (i : Nat) (x r : α), i < l.length →
      (insertAt l (i + 1) r).set i x = insertAt (l.set i x) (i + 1) r := by
  intro l
  induction l with
  | nil => intro i x r h; simp at h
  | cons b bs ih =>
      intro i x r h
      cases i with
      | zero => simp [insertAt]
      | succ j =>
          simp only [insertAt, List.set]
          rw [ih j x r (by simpa using h)]

theorem get?_insertAt_lt {α : Type} :
    ∀ (l : List α) (i : Nat) (r : α), i < l.length →
      (insertAt l (i + 1) r).get? i = l.get? i := by
  intro l
  induction l with
  | nil => intro i r h; simp at h
  | cons b bs ih =>
      intro i r h
      cases i with
      | zero => simp [insertAt]
      | succ j =>
          simp only [insertAt]
          simpa using ih j r (by simpa using h)

theorem get?_set_self {α : Type} :
    ∀ (l : List α) (i : Nat) (x : α), i < l.length → (l.set i x).get? i = some x := by
  intro l
  induction l with
  | nil => intro i x h; simp at h
  | cons b bs ih =>
      intro i x h
      cases i with
      | zero => simp
      | succ j => simpa using ih j x (by simpa using h)

theorem firstFitIdx_spec :
    ∀ (l : List MemoryBlock) (s i : Nat), firstFitIdx l s = some i →
      ∃ b, l.get? i = some b ∧ b.is_free = true ∧ s ≤ b.size := by
  intro l
  induction l with
  | nil => intro s i h; simp [firstFitIdx] at h
  | cons b bs ih =>
      intro s i h
      rw [firstFitIdx] at h
      by_cases hc : b.is_free && decide (s ≤ b.size)
      · rw [if_pos hc] at h
        cases h
        simp at hc
        exact ⟨b, rfl, hc.1, hc.2⟩
      · rw [if_neg hc] at h
        cases hr : firstFitIdx bs s with
        | none => rw [hr] at h; simp at h
        | some j =>
            rw [hr] at h
            simp at h
            subst h
            obtain ⟨b', hb', hf, hs⟩ := ih s j hr
            exact ⟨b', by simpa using hb', hf, hs⟩

theorem bestFitIdx_spec :
    ∀ (l : List MemoryBlock) (s m i : Nat), bestFitIdx l s m = some i →
      ∃ b, l.get? i = some b ∧ b.is_free = true ∧ s ≤ b.size := by
  intro l
  induction l with
  | nil => intro s m i h; simp [bestFitIdx] at h
  | cons b bs ih =>
      intro s m i h
      rw [bestFitIdx] at h
      by_cases hc : b.is_free && decide (s ≤ b.size) && decide (b.size < m)
      · rw [if_pos hc] at h
        simp at hc
        cases hr : bestFitIdx bs s b.size with
        | none =>
            rw [hr] at h
            cases h
            exact ⟨b, rfl, hc.1.1, hc.1.2⟩
        | some j =>
            rw [hr] at h
            cases h
            obtain ⟨b', hb', hf, hs⟩ := ih s b.size j hr
            exact ⟨b', by simpa using hb', hf, hs⟩
      · rw [if_neg hc] at h
        cases hr : bestFitIdx bs s m with
        | none => rw [hr] at h; simp at h
        | some j =>
            rw [hr] at h
            simp at h
            subst h
            obtain ⟨b', hb', hf, hs⟩ := ih s m j hr
            exact ⟨b', by simpa using hb', hf, hs⟩

theorem worstFitIdx_spec :
    ∀ (l : List MemoryBlock) (s m i : Nat), worstFitIdx l s m = some i →
      ∃ b, l.get? i = some b ∧ b.is_free = true ∧ s ≤ b.size := by
  intro l
  induction l with
  | nil => intro s m i h; simp [worstFitIdx] at h
  | cons b bs ih =>
      intro s m i h
      rw [worstFitIdx] at h
      by_cases hc : b.is_free && decide (s ≤ b.size) && decide (m < b.size)
      · rw [if_pos hc] at h
        simp at hc
        cases hr : worstFitIdx bs s b.size with
        | none =>
            rw [hr] at h
            cases h
            exact ⟨b, rfl, hc.1.1, hc.1.2⟩
        | some j =>
            rw [hr] at h
            cases h
            obtain ⟨b', hb', hf, hs⟩ := ih s b.size j hr
            exact ⟨b', by simpa using hb', hf, hs⟩
      · rw [if_neg hc] at h
        cases hr : worstFitIdx bs s m with
        | none => rw [hr] at h; simp at h
        | some j =>
            rw [hr] at h
            simp at h
            subst h
            obtain ⟨b', hb', hf, hs⟩ := ih s m j hr
            exact ⟨b', by simpa using hb', hf, hs⟩

theorem findBlockIn_spec (strategy : AllocatorType) (blocks : List MemoryBlock)
    (s i : Nat) (h : findBlockIn strategy blocks s = some i) :
    ∃ b, blocks.get? i = some b ∧ b.is_free = true ∧ s ≤ b.size := by
  unfold findBlockIn at h
  cases strategy
  · exact firstFitIdx_spec _ _ _ h
  · exact bestFitIdx_spec _ _ _ _ h
  · exact worstFitIdx_spec _ _ _ _ h

/-! ## Claims -/

/-- C5 counterexample.  The claim states that the bulk operations succeed
exactly when `addr + len ≤ total_size`, "in particular … for every len
including len = 0".  On a 4-byte memory, `addr = 4, len = 0` satisfies
`4 + 0 ≤ 4`, yet both `read_range` and `write_range` fail, because
`isValidRange` rejects `addr ≥ total_size` before looking at the length. -/
theorem c5_range_zero_len_boundary_fails :
    ((PhysicalMemory.init 4).writeRange 4 []).1 = false ∧
    ((PhysicalMemory.init 4).readRange 4 0).isSome = false ∧
    4 + 0 ≤ (PhysicalMemory.init 4).total_size := by
  refine ⟨by decide, by decide, by decide⟩

/-- C5, amended: `read_range(addr, len)` and `write_range(addr, len, src)`
succeed iff `addr < total_size` and, additionally, `addr + len ≤ total_size`
whenever `len ≠ 0` (true addition, which the code computes overflow-safely on
`uint64_t`).  For `len ≥ 1` this is exactly the claimed `addr + len ≤
total_size`; for `len = 0` the operations additionally require `addr` to be
strictly inside the memory. -/
theorem c5_range_success_iff (m : PhysicalMemory) (addr len : Nat)
    (src : List Nat)
    (ha : addr < UINT64_MOD) (hs : len < UINT64_MOD)
    (hsrc : src.length = len) (ht : m.total_size < UINT64_MOD) :
    ((m.writeRange addr src).1 = true ↔
      addr < m.total_size ∧ (len = 0 ∨ addr + len ≤ m.total_size)) ∧
    ((m.readRange addr len).isSome = true ↔
      addr < m.total_size ∧ (len = 0 ∨ addr + len ≤ m.total_size)) := by
  constructor
  · rw [writeRange_fst, hsrc]
    exact isValidRange_iff m addr len ha hs ht
  · rw [readRange_isSome]
    exact isValidRange_iff m addr len ha hs ht

/-- C5 witness: the amended characterization applied to a 4-byte memory with
`addr = 1, len = 2`. -/
theorem c5_range_success_iff_witness :
    (((PhysicalMemory.init 4).writeRange 1 [9, 9]).1 = true ↔
      1 < (PhysicalMemory.init 4).total_size ∧
        (2 = 0 ∨ 1 + 2 ≤ (PhysicalMemory.init 4).total_size)) ∧
    (((PhysicalMemory.init 4).readRange 1 2).isSome = true ↔
      1 < (PhysicalMemory.init 4).total_size ∧
        (2 = 0 ∨ 1 + 2 ≤ (PhysicalMemory.init 4).total_size)) :=
  c5_range_success_iff (PhysicalMemory.init 4) 1 2 [9, 9]
    (by decide) (by decide) (by decide) (by decide)

/-- C7: over a buddy allocator with `total_size = 1024`, `min_block_size =
32`, two consecutive `allocate(64)` calls succeed with ids 1 and 2, the
second block sits at the XOR-buddy address of the first, and the first is
64-aligned. -/
theorem c7_buddy_xor :
    (((BuddyAllocator.init 1024 32).allocate 64).2.allocate 64).1 = some 2 ∧
    ((BuddyAllocator.init 1024 32).allocate 64).1 = some 1 ∧
    (((BuddyAllocator.init 1024 32).allocate 64).2.allocate 64).2.getBlockAddress 1
      = some 0 ∧
    (((BuddyAllocator.init 1024 32).allocate 64).2.allocate 64).2.getBlockAddress 2
      = some (BuddyAllocator.getBuddyAddress 0 64) ∧
    0 % 64 = 0 := by
  refine ⟨by decide, by decide, by decide, by decide, by decide⟩

/-- C2 counterexample.  Over `VirtualMemory(4 vpages, 3 frames, page_size
256, Clock)` with reads at `0, 256, 512, 0, 768`, the claim predicts the
final fault evicts virtual page 1.  In the code every page is loaded with its
referenced bit set, so when the hand sweeps it clears the bits of pages 0–2,
wraps past the invalid page 3 and takes page 0: after the run the entry for
vpage 1 is still resident. -/
theorem c2_clock_victim_counterexample :
    ((runVM (VirtualMemory.init 4 3 256 PageReplacementPolicy.CLOCK,
        PhysicalMemory.init 1024)
      [VMOp.read 0, VMOp.read 256, VMOp.read 512, VMOp.read 0,
       VMOp.read 768]).1.page_table.getD 1 default).valid = true := by
  decide

/-- C2, amended: in the same scenario the victim of the final read is the
entry for virtual page 0 — the first entry whose referenced bit is clear once
the hand has swept (and cleared) all three loaded pages — while the entries
for vpages 1, 2 and the newly loaded vpage 3 are resident. -/
theorem c2_clock_victim_is_vpage0 :
    (((runVM (VirtualMemory.init 4 3 256 PageReplacementPolicy.CLOCK,
        PhysicalMemory.init 1024)
      [VMOp.read 0, VMOp.read 256, VMOp.read 512, VMOp.read 0,
       VMOp.read 768]).1.page_table.getD 0 default).valid = false) ∧
    (((runVM (VirtualMemory.init 4 3 256 PageReplacementPolicy.CLOCK,
        PhysicalMemory.init 1024)
      [VMOp.read 0, VMOp.read 256, VMOp.read 512, VMOp.read 0,
       VMOp.read 768]).1.page_table.getD 2 default).valid = true) ∧
    (((runVM (VirtualMemory.init 4 3 256 PageReplacementPolicy.CLOCK,
        PhysicalMemory.init 1024)
      [VMOp.read 0, VMOp.read 256, VMOp.read 512, VMOp.read 0,
       VMOp.read 768]).1.page_table.getD 3 default).valid = true) := by
  refine ⟨by decide, by decide, by decide⟩

/-- C1 counterexample.  On a one-line cache over a 2-byte memory, address 0
matches no valid line (the cache starts empty), yet after `write(0, 5)` the
line has been allocated: `contains(0)` returns `true`, refuting the claim
that a missing write leaves the cache untouched. -/
theorem c1_write_no_allocate_counterexample :
    findLineIdx ((CacheLevel.init 1 1 1 CachePolicy.FIFO).sets.getD
        ((CacheLevel.init 1 1 1 CachePolicy.FIFO).setIndexOf 0) [])
      ((CacheLevel.init 1 1 1 CachePolicy.FIFO).tagOf 0) = none ∧
    ((CacheLevel.init 1 1 1 CachePolicy.FIFO).write (PhysicalMemory.init 2)
        0 5).2.1.contains 0 = true := by
  refine ⟨by decide, by decide⟩

/-- C1, amended: when the tag of `addr` matches no valid line in its set and
the backing-store write succeeds, `CacheLevel::write` *does* allocate: it
writes the byte to the backing memory, selects a victim way, loads the
aligned block into it and patches the written byte, so a subsequent
`contains(addr)` returns `true`.  (Only when the memory write fails does the
cache stay untouched apart from the access counter and clock.) -/
theorem c1_write_miss_allocates (c : CacheLevel) (mem : PhysicalMemory)
    (addr v : Nat)
    (hmiss : findLineIdx (c.sets.getD (c.setIndexOf addr) []) (c.tagOf addr)
      = none)
    (hsi : c.setIndexOf addr < c.sets.length)
    (hset : 0 < (c.sets.getD (c.setIndexOf addr) []).length)
    (hbound : addr < mem.total_size) :
    (c.write mem addr v).1 = true ∧
    (c.write mem addr v).2.2.readByte addr = some v ∧
    (c.write mem addr v).2.1.contains addr = true := by
  have hw : mem.writeByte addr v =
      some { mem with bytes := fun x => if x = addr then v else mem.bytes x } := by
    unfold PhysicalMemory.writeByte
    rw [if_neg (Nat.not_le.mpr hbound)]
  simp only [CacheLevel.write]
  simp only [hw, hmiss]
  refine ⟨trivial, ?_, ?_⟩
  · simp [PhysicalMemory.readByte, Nat.not_le.mpr hbound]
  · refine contains_setLine_self _ addr _ _ _ rfl ?_ ?_ ?_ ?_
    · simpa [CacheLevel.loadBlock, CacheLevel.setLine] using hsi
    · simp only [CacheLevel.loadBlock, CacheLevel.setLine]
      rw [getD_set_self _ _ _ _ hsi, List.length_set]
      exact selectVictimIn_lt _ _ hset
    · simp only [CacheLevel.loadBlock, CacheLevel.setLine]
      rw [getD_set_self _ _ _ _ hsi,
        getD_set_self _ _ _ _ (selectVictimIn_lt _ _ hset)]
    · simp only [CacheLevel.loadBlock, CacheLevel.setLine]
      rw [getD_set_self _ _ _ _ hsi,
        getD_set_self _ _ _ _ (selectVictimIn_lt _ _ hset)]
      rfl

/-- C1 witness: the amended statement at the one-line cache over a 2-byte
memory, writing 5 to the cold address 0. -/
theorem c1_write_miss_allocates_witness :
    ((CacheLevel.init 1 1 1 CachePolicy.FIFO).write (PhysicalMemory.init 2)
      0 5).1 = true ∧
    ((CacheLevel.init 1 1 1 CachePolicy.FIFO).write (PhysicalMemory.init 2)
      0 5).2.2.readByte 0 = some 5 ∧
    ((CacheLevel.init 1 1 1 CachePolicy.FIFO).write (PhysicalMemory.init 2)
      0 5).2.1.contains 0 = true :=
  c1_write_miss_allocates (CacheLevel.init 1 1 1 CachePolicy.FIFO)
    (PhysicalMemory.init 2) 0 5 (by decide) (by decide) (by decide) (by decide)

/-- C6: when `allocate(s)` selects the free block at index `i` (of size
`b.size ≥ s`), the block is split iff `b.size > s + 1`; on a split the
allocated block keeps the start address with exactly size `s` and id
`next_block_id`, and a free remainder of size `b.size − s` is inserted
immediately after it; otherwise the full block serves the request unsplit.
The last two conjuncts confirm the selected block is free and large enough
under every fit strategy. -/
theorem c6_split_policy (a : StandardAllocator) (s i : Nat) (b : MemoryBlock)
    (hs : s ≠ 0)
    (hfind : findBlockIn a.strategy a.blocks s = some i)
    (hb : a.blocks.get? i = some b) :
    (s + 1 < b.size →
      (a.allocate s).2.blocks =
        insertAt (a.blocks.set i ⟨b.start_address, s, false, a.next_block_id⟩)
          (i + 1) ⟨b.start_address + s, b.size - s, true, 0⟩) ∧
    (b.size ≤ s + 1 →
      (a.allocate s).2.blocks =
        a.blocks.set i { b with is_free := false, id := a.next_block_id }) ∧
    b.is_free = true ∧ s ≤ b.size := by
  have hlen : i < a.blocks.length := by
    by_contra hcon
    rw [List.get?_eq_none.mpr (by omega)] at hb
    cases hb
  obtain ⟨b', hb', hfree, hsz⟩ := findBlockIn_spec a.strategy a.blocks s i hfind
  rw [hb] at hb'
  cases hb'
  refine ⟨?_, ?_, hfree, hsz⟩
  · intro hsplit
    simp only [StandardAllocator.allocate, if_neg hs, hfind]
    simp only [splitBlockList, hb, if_pos hsplit]
    rw [get?_insertAt_lt _ _ _ (by simpa using hlen),
      get?_set_self _ _ _ hlen]
    dsimp only
    rw [insertAt_set_comm _ _ _ _ (by simpa using hlen), List.set_set]
  · intro hnos
    simp only [StandardAllocator.allocate, if_neg hs, hfind]
    simp only [splitBlockList, hb, if_neg (by omega : ¬ s + 1 < b.size)]

/-- C6 witness: the split policy at a fresh 100-byte FIRST_FIT allocator
serving a request of 10 bytes from the single free block of size 100. -/
theorem c6_split_policy_witness :
    (10 + 1 < 100 →
      ((StandardAllocator.init 100 AllocatorType.FIRST_FIT).allocate 10).2.blocks =
        insertAt ((StandardAllocator.init 100 AllocatorType.FIRST_FIT).blocks.set 0
            ⟨0, 10, false, 1⟩) 1 ⟨0 + 10, 100 - 10, true, 0⟩) ∧
    (100 ≤ 10 + 1 →
      ((StandardAllocator.init 100 AllocatorType.FIRST_FIT).allocate 10).2.blocks =
        (StandardAllocator.init 100 AllocatorType.FIRST_FIT).blocks.set 0
          { (⟨0, 100, true, 0⟩ : MemoryBlock) with is_free := false, id := 1 }) ∧
    (⟨0, 100, true, 0⟩ : MemoryBlock).is_free = true ∧ 10 ≤ 100 :=
  c6_split_policy (StandardAllocator.init 100 AllocatorType.FIRST_FIT) 10 0
    ⟨0, 100, true, 0⟩ (by decide) (by decide) (by decide)

theorem allocate_some_next (a : StandardAllocator) (s id : Nat)
    (a' : StandardAllocator) (h : a.allocate s = (some id, a')) :
    id = a.next_block_id ∧
    a'.next_block_id = (a.next_block_id + 1) % UINT32_MOD := by
  unfold StandardAllocator.allocate at h
  by_cases hs : s = 0
  · rw [if_pos hs] at h
    cases h
  · rw [if_neg hs] at h
    cases hf : findBlockIn a.strategy a.blocks s with
    | none => rw [hf] at h; cases h
    | some i =>
        rw [hf] at h
        cases h
        exact ⟨rfl, rfl⟩

theorem allocate_none_next (a : StandardAllocator) (s : Nat)
    (a' : StandardAllocator) (h : a.allocate s = (none, a')) :
    a'.next_block_id = a.next_block_id := by
  unfold StandardAllocator.allocate at h
  by_cases hs : s = 0
  · rw [if_pos hs] at h
    cases h
    rfl
  · rw [if_neg hs] at h
    cases hf : findBlockIn a.strategy a.blocks s with
    | none =>
        rw [hf] at h
        cases h
        rfl
    | some i => rw [hf] at h; cases h

theorem deallocate_next (a : StandardAllocator) (id : Nat) :
    ((a.deallocate id).2).next_block_id = a.next_block_id := by
  unfold StandardAllocator.deallocate
  cases findAllocatedIdx a.blocks id with
  | none => rfl
  | some i =>
      cases a.blocks.get? i with
      | none => rfl
      | some b => rfl

theorem deallocateByAddress_next (a : StandardAllocator) (addr : Nat) :
    ((a.deallocateByAddress addr).2).next_block_id = a.next_block_id := by
  unfold StandardAllocator.deallocateByAddress
  cases a.blocks.find? (fun b => !b.is_free && b.start_address == addr) with
  | none => rfl
  | some b => exact deallocate_next a b.id

/-- Id accounting for a run, valid as long as `next_block_id_` cannot wrap:
each successful `allocate` issues the current `next_block_id` and advances it
by one (mod `2^32`), so under the no-wrap bound the issued ids fill a
strictly increasing window starting at the initial `next_block_id`. -/
theorem runStd_ids (ops : List AllocOp) :
    ∀ (a : StandardAllocator),
      a.next_block_id + ops.length ≤ UINT32_MOD →
      List.Pairwise (· < ·) (runStd a ops).2 ∧
      (∀ x ∈ (runStd a ops).2,
        a.next_block_id ≤ x ∧ x < a.next_block_id + ops.length) := by
  induction ops with
  | nil => intro a _; simp [runStd]
  | cons op ops ih =>
      intro a hbound
      simp only [List.length_cons] at hbound
      cases op with
      | alloc s =>
          cases h : a.allocate s with
          | mk r a' =>
              cases r with
              | some id =>
                  obtain ⟨hid, hnext⟩ := allocate_some_next a s id a' h
                  by_cases hw : a.next_block_id + 1 < UINT32_MOD
                  · have hnext' : a'.next_block_id = a.next_block_id + 1 := by
                      rw [hnext, Nat.mod_eq_of_lt hw]
                    obtain ⟨ihp, ihb⟩ := ih a' (by omega)
                    simp only [runStd, h]
                    constructor
                    · refine List.pairwise_cons.mpr ⟨fun y hy => ?_, ihp⟩
                      have := (ihb y hy).1
                      omega
                    · intro x hx
                      simp only [List.length_cons]
                      rcases List.mem_cons.mp hx with hx | hx
                      · subst hx; omega
                      · have := ihb x hx
                        omega
                  · have hops : ops = [] := by
                      have : ops.length = 0 := by omega
                      exact List.length_eq_zero.mp this
                    subst hops
                    simp only [runStd, h]
                    refine ⟨List.pairwise_singleton _ _, fun x hx => ?_⟩
                    rcases List.mem_cons.mp hx with hx | hx
                    · subst hx
                      simp only [List.length_cons, List.length_nil]
                      omega
                    · cases hx
              | none =>
                  have hnext := allocate_none_next a s a' h
                  obtain ⟨ihp, ihb⟩ := ih a' (by omega)
                  simp only [runStd, h]
                  refine ⟨ihp, fun x hx => ?_⟩
                  have := ihb x hx
                  simp only [List.length_cons]
                  omega
      | free id =>
          have hnext := deallocate_next a id
          obtain ⟨ihp, ihb⟩ := ih (a.deallocate id).2 (by omega)
          simp only [runStd]
          refine ⟨ihp, fun x hx => ?_⟩
          have := ihb x hx
          simp only [List.length_cons]
          omega
      | freeAddr addr =>
          have hnext := deallocateByAddress_next a addr
          obtain ⟨ihp, ihb⟩ := ih (a.deallocateByAddress addr).2 (by omega)
          simp only [runStd]
          refine ⟨ihp, fun x hx => ?_⟩
          have := ihb x hx
          simp only [List.length_cons]
          omega

/-- The allocator state reached at the top of each allocate/free cycle over a
one-byte arena: a single free block, `next_block_id = n`, and the two
counters at `t` / `d`. -/
def cycleA (n t d : Nat) : StandardAllocator :=
  { strategy := AllocatorType.FIRST_FIT, blocks := [⟨0, 1, true, 0⟩],
    next_block_id := n, total_allocations := t, failed_allocations := 0,
    total_deallocations := d, requested_sizes := [], used_size := 0 }

/-- `k` repetitions of `allocate(1); deallocateByAddress(0)`. -/
def cycleOps : Nat → List AllocOp
  | 0 => []
  | k + 1 => AllocOp.alloc 1 :: AllocOp.freeAddr 0 :: cycleOps k

/-- The ids such a run hands out: `n, n+1, ...` reduced mod `2^32`. -/
def idsFrom : Nat → Nat → List Nat
  | _, 0 => []
  | n, k + 1 => n :: idsFrom ((n + 1) % UINT32_MOD) k

theorem cycleA_alloc (n t d : Nat) :
    (cycleA n t d).allocate 1 =
      (some n, { strategy := AllocatorType.FIRST_FIT,
                 blocks := [⟨0, 1, false, n⟩],
                 next_block_id := (n + 1) % UINT32_MOD,
                 total_allocations := t + 1, failed_allocations := 0,
                 total_deallocations := d, requested_sizes := [(n, 1)],
                 used_size := 1 }) := rfl

theorem cycleA_dealloc (n t d : Nat) :
    (({ strategy := AllocatorType.FIRST_FIT, blocks := [⟨0, 1, false, n⟩], next_block_id := (n + 1) % UINT32_MOD, total_allocations := t + 1, failed_allocations := 0, total_deallocations := d, requested_sizes := [(n, 1)], used_size := 1 } : StandardAllocator).deallocateByAddress 0).2
      = cycleA ((n + 1) % UINT32_MOD) (t + 1) (d + 1) := by
  have hfa : findAllocatedIdx [(⟨0, 1, false, n⟩ : MemoryBlock)] n = some 0 := by
    unfold findAllocatedIdx findIdxP
    simp
  have hfind : List.find? (fun b => !b.is_free && b.start_address == 0)
      [(⟨0, 1, false, n⟩ : MemoryBlock)] = some ⟨0, 1, false, n⟩ := rfl
  unfold StandardAllocator.deallocateByAddress
  dsimp only
  rw [hfind]
  dsimp only
  unfold StandardAllocator.deallocate
  rw [hfa]
  dsimp only
  unfold cycleA
  simp
  exact ⟨rfl, rfl⟩

theorem runStd_cycle (k : Nat) :
    ∀ n t d, (runStd (cycleA n t d) (cycleOps k)).2 = idsFrom n k := by
  induction k with
  | zero => intro n t d; rfl
  | succ k ih =>
      intro n t d
      show (runStd (cycleA n t d)
        (AllocOp.alloc 1 :: AllocOp.freeAddr 0 :: cycleOps k)).2
        = n :: idsFrom ((n + 1) % UINT32_MOD) k
      simp only [runStd, cycleA_alloc, cycleA_dealloc]
      rw [ih]

theorem idsFrom_eq_map :
    ∀ (k n : Nat), idsFrom (n % UINT32_MOD) k
      = (List.range k).map (fun i => (n + i) % UINT32_MOD) := by
  intro k
  induction k with
  | zero => intro n; rfl
  | succ k ih =>
      intro n
      have h1 : (n % UINT32_MOD + 1) % UINT32_MOD = (n + 1) % UINT32_MOD := by
        conv_rhs => rw [Nat.add_mod]
        have h2 : (1 : Nat) % UINT32_MOD = 1 := rfl
        rw [h2]
      show (n % UINT32_MOD)
          :: idsFrom ((n % UINT32_MOD + 1) % UINT32_MOD) k
        = (List.range (k + 1)).map (fun i => (n + i) % UINT32_MOD)
      rw [List.range_succ_eq_map, List.map_cons, List.map_map, h1, ih (n + 1)]
      refine congrArg₂ (· :: ·) (by simp) ?_
      refine List.map_congr_left fun i _ => ?_
      exact congrArg (· % UINT32_MOD) (by omega)

/-- Claim C9, counterexample: `next_block_id_` is a `uint32_t`, so over
`2^32` allocate/free cycles on a one-byte arena the increment wraps and the
final cycle is issued the id `0` — refuting the claim that ids are strictly
increasing and nonzero over every operation sequence. -/
theorem c9_wrap_counterexample :
    ¬ (List.Pairwise (· < ·)
        (runStd (StandardAllocator.init 1 AllocatorType.FIRST_FIT)
          (cycleOps UINT32_MOD)).2 ∧
       ∀ x ∈ (runStd (StandardAllocator.init 1 AllocatorType.FIRST_FIT)
          (cycleOps UINT32_MOD)).2, x ≠ 0) := by
  intro hcon
  have hins : StandardAllocator.init 1 AllocatorType.FIRST_FIT
      = cycleA 1 0 0 := rfl
  have hids := runStd_cycle UINT32_MOD 1 0 0
  have h0 : (0 : Nat) ∈ (runStd (StandardAllocator.init 1 AllocatorType.FIRST_FIT)
      (cycleOps UINT32_MOD)).2 := by
    rw [hins, hids]
    have h1 : (1 : Nat) % UINT32_MOD = 1 := rfl
    have h2 := idsFrom_eq_map UINT32_MOD 1
    rw [h1] at h2
    rw [h2]
    have hpos : 0 < UINT32_MOD := by decide
    refine List.mem_map.mpr ⟨UINT32_MOD - 1, List.mem_range.mpr (by omega), ?_⟩
    have h3 : 1 + (UINT32_MOD - 1) = UINT32_MOD := by omega
    rw [h3, Nat.mod_self]
  exact hcon.2 0 h0 rfl

/-- Claim C9, amended: over any operation sequence shorter than `2^32` on a
fresh `StandardAllocator`, the ids returned by successful `allocate` calls
are pairwise strictly increasing (so never reused, even after intervening
deallocations) and never zero.  The length bound keeps the `uint32_t`
`next_block_id_` from wrapping; without it ids repeat and `0` is issued. -/
theorem c9_block_ids_strictly_increasing (total_size : Nat)
    (strategy : AllocatorType) (ops : List AllocOp)
    (hlen : ops.length < UINT32_MOD) :
    List.Pairwise (· < ·)
      (runStd (StandardAllocator.init total_size strategy) ops).2 ∧
    ∀ x ∈ (runStd (StandardAllocator.init total_size strategy) ops).2,
      x ≠ 0 := by
  have h1 : (StandardAllocator.init total_size strategy).next_block_id = 1 := rfl
  obtain ⟨hp, hb⟩ := runStd_ids ops (StandardAllocator.init total_size strategy)
    (by rw [h1]; omega)
  refine ⟨hp, fun x hx => ?_⟩
  have := (hb x hx).1
  omega

/-- Witness for claim C9: a four-operation workload (with an intervening
deallocation) under the length bound. -/
theorem c9_block_ids_strictly_increasing_witness :
    ([AllocOp.alloc 4, AllocOp.alloc 4, AllocOp.free 1, AllocOp.alloc 2] : List AllocOp).length < UINT32_MOD ∧
    (List.Pairwise (· < ·)
      (runStd (StandardAllocator.init 16 AllocatorType.FIRST_FIT)
        [AllocOp.alloc 4, AllocOp.alloc 4, AllocOp.free 1, AllocOp.alloc 2]).2 ∧
    ∀ x ∈ (runStd (StandardAllocator.init 16 AllocatorType.FIRST_FIT)
        [AllocOp.alloc 4, AllocOp.alloc 4, AllocOp.free 1, AllocOp.alloc 2]).2,
      x ≠ 0) :=
  ⟨by decide, c9_block_ids_strictly_increasing 16 AllocatorType.FIRST_FIT
    [AllocOp.alloc 4, AllocOp.alloc 4, AllocOp.free 1, AllocOp.alloc 2]
    (by decide)⟩

theorem findFreeBlock_add_self (fl : Nat → List Nat) (size addr : Nat) :
    findFreeBlock (addToFreeList fl size addr) size ≠ none := by
  unfold findFreeBlock addToFreeList
  simp only [if_pos rfl]
  cases fl size <;> simp

/-- Once some free list holds a block of size `c = t · 2^k`, the descent of
`splitBlock` from `c` to `t` succeeds (given at least `k + 1` units of
fuel). -/
theorem splitGo_isSome (max : Nat) :
    ∀ (k fuel t c : Nat) (fl : Nat → List Nat),
      c = t * 2 ^ k → 1 ≤ t → k < fuel → findFreeBlock fl c ≠ none →
      ((splitGo max fuel c t fl).1).isSome = true := by
  intro k
  induction k with
  | zero =>
      intro fuel t c fl hc ht hk hff
      cases fuel with
      | zero => omega
      | succ f =>
          have hct : c = t := by rw [hc]; simp
          simp only [splitGo, if_pos hct]
          cases hff' : findFreeBlock fl c with
          | none => exact absurd hff' hff
          | some addr => simp
  | succ k ih =>
      intro fuel t c fl hc ht hk hff
      cases fuel with
      | zero => omega
      | succ f =>
          have hx : 1 ≤ 2 ^ k := Nat.one_le_two_pow
          have hct : ¬ c = t := by
            rw [hc, pow_succ]
            intro heq
            nlinarith
          simp only [splitGo, if_neg hct]
          cases hff' : findFreeBlock fl c with
          | none => exact absurd hff' hff
          | some addr =>
              have hhalf : c / 2 = t * 2 ^ k := by
                rw [hc, pow_succ, ← mul_assoc]
                exact Nat.mul_div_cancel _ (by norm_num)
              dsimp only
              rw [hhalf]
              exact ih f t (t * 2 ^ k) _ rfl ht (by omega)
                (findFreeBlock_add_self _ _ _)

/-- A failed `splitBlock` leaves the free lists untouched: the climb to
larger classes mutates nothing, and whenever a class is non-empty the
(sufficiently fuelled) descent cannot fail. -/
theorem splitGo_none_frame (max : Nat) :
    ∀ (fuel c t k : Nat) (fl fl' : Nat → List Nat),
      c = t * 2 ^ k → 1 ≤ t → c ≤ 2 * max → 2 * max + 1 ≤ fuel + k →
      splitGo max fuel c t fl = (none, fl') → fl' = fl := by
  intro fuel
  induction fuel with
  | zero =>
      intro c t k fl fl' _ _ _ _ h
      simp only [splitGo] at h
      exact (Prod.mk.injEq _ _ _ _ ▸ h).2.symm
  | succ f ih =>
      intro c t k fl fl' hc ht hcm hfuel h
      by_cases hct : c = t
      · simp only [splitGo, if_pos hct] at h
        cases hff : findFreeBlock fl c with
        | some addr => rw [hff] at h; cases h
        | none =>
            rw [hff] at h
            by_cases hmax : max ≤ c
            · rw [if_pos hmax] at h
              cases h
              rfl
            · rw [if_neg hmax] at h
              refine ih (c * 2) t (k + 1) fl fl' ?_ ht (by omega) (by omega) h
              rw [hc, pow_succ, mul_assoc]
      · simp only [splitGo, if_neg hct] at h
        cases hff : findFreeBlock fl c with
        | none =>
            rw [hff] at h
            by_cases hmax : max ≤ c
            · rw [if_pos hmax] at h
              cases h
              rfl
            · rw [if_neg hmax] at h
              refine ih (c * 2) t (k + 1) fl fl' ?_ ht (by omega) (by omega) h
              rw [hc, pow_succ, mul_assoc]
        | some addr =>
            rw [hff] at h
            dsimp only at h
            exfalso
            have hk1 : 1 ≤ k := by
              rcases Nat.eq_zero_or_pos k with hk0 | hk0
              · subst hk0
                simp at hc
                omega
              · exact hk0
            have hkm : k ≤ max := by
              have h2k : 2 ^ k ≤ 2 * max := by
                calc 2 ^ k = 1 * 2 ^ k := by omega
                _ ≤ t * 2 ^ k := Nat.mul_le_mul_right _ ht
                _ = c := hc.symm
                _ ≤ 2 * max := hcm
              have hlt : k - 1 < 2 ^ (k - 1) := Nat.lt_two_pow _
              have h2k' : 2 * 2 ^ (k - 1) = 2 ^ k := by
                have hkk : k - 1 + 1 = k := by omega
                calc 2 * 2 ^ (k - 1) = 2 ^ (k - 1) * 2 := by ring
                  _ = 2 ^ (k - 1 + 1) := (pow_succ 2 (k - 1)).symm
                  _ = 2 ^ k := by rw [hkk]
              omega
            have hhalf : c / 2 = t * 2 ^ (k - 1) := by
              have hkk : k - 1 + 1 = k := by omega
              rw [hc, ← hkk, pow_succ, ← mul_assoc]
              exact Nat.mul_div_cancel _ (by norm_num)
            rw [hhalf] at h
            have hsome : ((splitGo max f (t * 2 ^ (k - 1)) t
                (addToFreeList
                  (addToFreeList (removeFromFreeList fl c addr)
                    (t * 2 ^ (k - 1)) addr)
                  (t * 2 ^ (k - 1)) (addr + t * 2 ^ (k - 1)))).1).isSome
                = true :=
              splitGo_isSome max (k - 1) f t _ _ rfl ht (by omega)
                (findFreeBlock_add_self _ _ _)
            rw [h] at hsome
            simp at hsome

theorem roundUpGo_pos (s : Nat) :
    ∀ (fuel power : Nat), 1 ≤ power → 1 ≤ roundUpGo s fuel power := by
  intro fuel
  induction fuel with
  | zero => intro power hp; simpa [roundUpGo] using hp
  | succ f ih =>
      intro power hp
      rw [roundUpGo]
      by_cases h : power < s
      · rw [if_pos h]
        exact ih (power * 2) (by omega)
      · rw [if_neg h]
        exact hp

theorem roundUpToPowerOfTwo_pos (s : Nat) : 1 ≤ roundUpToPowerOfTwo s := by
  unfold roundUpToPowerOfTwo
  by_cases h0 : s = 0
  · simp [h0]
  · rw [if_neg h0]
    by_cases hp : isPowerOfTwo s = true
    · rw [if_pos hp]
      unfold isPowerOfTwo at hp
      simp at hp
      omega
    · simp only [Bool.not_eq_true] at hp
      rw [if_neg (by simp [hp])]
      exact roundUpGo_pos s s 1 (by omega)

/-- C10: a failed `allocate` — zero-size request, oversized request or out of
memory — changes nothing in either allocator except incrementing
`total_allocations` and `failed_allocations`: the block list / free lists,
the id and address tracking maps, the requested-size map, `next_block_id`
and the advisory `used_size` are all exactly as before. -/
theorem c10_failed_allocate_atomic (sa : StandardAllocator)
    (ba : BuddyAllocator) (s1 s2 : Nat)
    (h1 : (sa.allocate s1).1 = none)
    (h2 : (ba.allocate s2).1 = none) :
    (sa.allocate s1).2 =
      { sa with total_allocations := sa.total_allocations + 1,
                failed_allocations := sa.failed_allocations + 1 } ∧
    (ba.allocate s2).2 =
      { ba with total_allocations := ba.total_allocations + 1,
                failed_allocations := ba.failed_allocations + 1 } := by
  constructor
  · unfold StandardAllocator.allocate at h1 ⊢
    by_cases hs : s1 = 0
    · rw [if_pos hs]
    · rw [if_neg hs] at h1 ⊢
      dsimp only at h1 ⊢
      cases hf : findBlockIn sa.strategy sa.blocks s1 with
      | none => rfl
      | some i =>
          rw [hf] at h1
          cases h1
  · unfold BuddyAllocator.allocate at h2 ⊢
    by_cases hs : s2 = 0
    · rw [if_pos hs]
    · rw [if_neg hs] at h2 ⊢
      dsimp only at h2 ⊢
      by_cases hm : ba.max_block_size <
          (if roundUpToPowerOfTwo s2 < ba.min_block_size then ba.min_block_size
           else roundUpToPowerOfTwo s2)
      · rw [if_pos hm]
      · rw [if_neg hm] at h2 ⊢
        cases hsp : BuddyAllocator.splitBlock
            { ba with total_allocations := ba.total_allocations + 1 }
            (if roundUpToPowerOfTwo s2 < ba.min_block_size then ba.min_block_size
             else roundUpToPowerOfTwo s2) with
        | mk r fl =>
            cases r with
            | some addr =>
                rw [hsp] at h2
                simp at h2
            | none =>
                have hfl : fl = ba.free_lists := by
                  have hpos : 1 ≤
                      (if roundUpToPowerOfTwo s2 < ba.min_block_size then
                        ba.min_block_size else roundUpToPowerOfTwo s2) := by
                    have := roundUpToPowerOfTwo_pos s2
                    by_cases hr : roundUpToPowerOfTwo s2 < ba.min_block_size
                    · rw [if_pos hr]
                      omega
                    · rw [if_neg hr]
                      omega
                  refine splitGo_none_frame ba.max_block_size
                    (2 * ba.max_block_size + 2)
                    (if roundUpToPowerOfTwo s2 < ba.min_block_size then
                      ba.min_block_size else roundUpToPowerOfTwo s2)
                    (if roundUpToPowerOfTwo s2 < ba.min_block_size then
                      ba.min_block_size else roundUpToPowerOfTwo s2)
                    0 ba.free_lists fl (by rw [pow_zero, mul_one]) hpos
                    (by omega) (by omega) ?_
                  unfold BuddyAllocator.splitBlock at hsp
                  exact hsp
                rw [hsp] at h2
                dsimp only
                rw [hfl]

/-- C10 witness: the atomicity of failure on a zero-size request for a fresh
16-byte FIRST_FIT allocator and a fresh 64/32 buddy allocator. -/
theorem c10_failed_allocate_atomic_witness :
    ((StandardAllocator.init 16 AllocatorType.FIRST_FIT).allocate 0).2 =
      { StandardAllocator.init 16 AllocatorType.FIRST_FIT with
        total_allocations :=
          (StandardAllocator.init 16 AllocatorType.FIRST_FIT).total_allocations + 1,
        failed_allocations :=
          (StandardAllocator.init 16 AllocatorType.FIRST_FIT).failed_allocations + 1 } ∧
    ((BuddyAllocator.init 64 32).allocate 0).2 =
      { BuddyAllocator.init 64 32 with
        total_allocations := (BuddyAllocator.init 64 32).total_allocations + 1,
        failed_allocations := (BuddyAllocator.init 64 32).failed_allocations + 1 } :=
  c10_failed_allocate_atomic (StandardAllocator.init 16 AllocatorType.FIRST_FIT)
    (BuddyAllocator.init 64 32) 0 0 (by rfl) (by rfl)

theorem write_mem_bytes (c : CacheLevel) (mem : PhysicalMemory) (addr v : Nat)
    (h : addr < mem.total_size) :
    ((c.write mem addr v).2.2).total_size = mem.total_size ∧
    ((c.write mem addr v).2.2).bytes addr = v := by
  have hw : mem.writeByte addr v =
      some { mem with bytes := fun x => if x = addr then v else mem.bytes x } := by
    unfold PhysicalMemory.writeByte
    rw [if_neg (Nat.not_le.mpr h)]
  unfold CacheLevel.write
  rw [hw]
  dsimp only
  cases hfl : findLineIdx (c.sets.getD (c.setIndexOf addr) []) (c.tagOf addr) with
  | some i => exact ⟨rfl, by simp⟩
  | none => exact ⟨rfl, by simp⟩

/-- C8: for every hierarchy and in-bounds address, `write(a, v)` succeeds
(the byte goes to the backing store first; the conditional L1/L2 updates
rewrite the same byte), and after `flush()` — which only invalidates lines
and never writes back — the backing memory still reads `v` at `a`. -/
theorem c8_write_through_flush (h : CacheHierarchy) (a v : Nat)
    (hb : a < h.memory.total_size) :
    (h.write a v).1 = true ∧
    ((h.write a v).2.flush).memory.readByte a = some v := by
  have hw : h.memory.writeByte a v =
      some { h.memory with bytes := fun x => if x = a then v else h.memory.bytes x } := by
    unfold PhysicalMemory.writeByte
    rw [if_neg (Nat.not_le.mpr hb)]
  unfold CacheHierarchy.write
  rw [hw]
  dsimp only
  refine ⟨rfl, ?_⟩
  · have step2 : ∀ (m2 : PhysicalMemory), m2.total_size = h.memory.total_size →
        m2.bytes a = v →
        ((if h.l2.contains a then
            ((h.l2.write m2 a v).2.1, (h.l2.write m2 a v).2.2)
          else (h.l2, m2)).2).readByte a = some v := by
      intro m2 ht hv
      by_cases h2 : h.l2.contains a = true
      · rw [if_pos h2]
        dsimp only
        obtain ⟨ht2, hv2⟩ := write_mem_bytes h.l2 m2 a v (by omega)
        rw [PhysicalMemory.readByte_of_lt (by omega), hv2]
      · rw [if_neg h2]
        dsimp only
        rw [PhysicalMemory.readByte_of_lt (by omega), hv]
    by_cases h1 : h.l1.contains a = true
    · rw [if_pos h1]
      obtain ⟨ht1, hv1⟩ := write_mem_bytes h.l1
        { h.memory with bytes := fun x => if x = a then v else h.memory.bytes x }
        a v (by simpa using hb)
      exact step2 _ (by simpa using ht1) hv1
    · rw [if_neg h1]
      exact step2 _ rfl (by simp)

/-- C8 witness: write-through plus flush on a small hierarchy over a 4-byte
memory. -/
theorem c8_write_through_flush_witness :
    ((CacheHierarchy.init (PhysicalMemory.init 4) 1 1 1 CachePolicy.FIFO
        1 1 1 CachePolicy.FIFO).write 0 7).1 = true ∧
    (((CacheHierarchy.init (PhysicalMemory.init 4) 1 1 1 CachePolicy.FIFO
        1 1 1 CachePolicy.FIFO).write 0 7).2.flush).memory.readByte 0 = some 7 :=
  c8_write_through_flush
    (CacheHierarchy.init (PhysicalMemory.init 4) 1 1 1 CachePolicy.FIFO
      1 1 1 CachePolicy.FIFO) 0 7 (by decide)

theorem read_stats_eq (c : CacheLevel) (mem : PhysicalMemory) (addr : Nat) :
    ((c.read mem addr).2).stats.accesses = c.stats.accesses + 1 ∧
    ((c.read mem addr).2).stats.hits + ((c.read mem addr).2).stats.misses
      = c.stats.hits + c.stats.misses + 1 := by
  unfold CacheLevel.read
  dsimp only
  cases hfl : findLineIdx (c.sets.getD (c.setIndexOf addr) []) (c.tagOf addr) with
  | some i =>
      simp only [CacheLevel.setLine]
      exact ⟨by trivial, by omega⟩
  | none =>
      simp only [CacheLevel.loadBlock, CacheLevel.setLine]
      exact ⟨by trivial, by omega⟩

theorem write_stats_inb (c : CacheLevel) (mem : PhysicalMemory) (addr v : Nat)
    (h : addr < mem.total_size) :
    ((c.write mem addr v).2.1).stats.accesses = c.stats.accesses + 1 ∧
    ((c.write mem addr v).2.1).stats.hits + ((c.write mem addr v).2.1).stats.misses
      = c.stats.hits + c.stats.misses + 1 := by
  have hw : mem.writeByte addr v =
      some { mem with bytes := fun x => if x = addr then v else mem.bytes x } := by
    unfold PhysicalMemory.writeByte
    rw [if_neg (Nat.not_le.mpr h)]
  unfold CacheLevel.write
  rw [hw]
  dsimp only
  cases hfl : findLineIdx (c.sets.getD (c.setIndexOf addr) []) (c.tagOf addr) with
  | some i =>
      simp only [CacheLevel.setLine]
      exact ⟨by trivial, by omega⟩
  | none =>
      simp only [CacheLevel.loadBlock, CacheLevel.setLine]
      exact ⟨by trivial, by omega⟩

theorem write_stats_oob (c : CacheLevel) (mem : PhysicalMemory) (addr v : Nat)
    (h : ¬ addr < mem.total_size) :
    c.write mem addr v =
      (false,
       { c with stats := { c.stats with accesses := c.stats.accesses + 1 },
                global_time := c.global_time + 1 }, mem) := by
  have hw : mem.writeByte addr v = none := by
    unfold PhysicalMemory.writeByte
    rw [if_pos (Nat.le_of_not_lt h)]
  unfold CacheLevel.write
  rw [hw]

theorem runCache_le (ops : List CacheOp) :
    ∀ s : CacheLevel × PhysicalMemory,
      s.1.stats.hits + s.1.stats.misses ≤ s.1.stats.accesses →
      (runCache s ops).1.stats.hits + (runCache s ops).1.stats.misses
        ≤ (runCache s ops).1.stats.accesses := by
  induction ops with
  | nil => intro s h; exact h
  | cons op ops ih =>
      intro s h
      have hstep : (CacheLevel.step s op).1.stats.hits
          + (CacheLevel.step s op).1.stats.misses
          ≤ (CacheLevel.step s op).1.stats.accesses := by
        cases op with
        | read a =>
            obtain ⟨h1, h2⟩ := read_stats_eq s.1 s.2 a
            simp only [CacheLevel.step]
            omega
        | write a v =>
            by_cases hb : a < s.2.total_size
            · obtain ⟨h1, h2⟩ := write_stats_inb s.1 s.2 a v hb
              simp only [CacheLevel.step]
              omega
            · simp only [CacheLevel.step, write_stats_oob s.1 s.2 a v hb]
              omega
        | contains a => exact h
        | flush => exact h
      exact ih (CacheLevel.step s op) hstep

theorem runCache_eq (ops : List CacheOp) :
    ∀ (s : CacheLevel × PhysicalMemory) (T : Nat),
      s.2.total_size = T →
      (∀ a v, CacheOp.write a v ∈ ops → a < T) →
      s.1.stats.hits + s.1.stats.misses = s.1.stats.accesses →
      (runCache s ops).2.total_size = T ∧
      (runCache s ops).1.stats.hits + (runCache s ops).1.stats.misses
        = (runCache s ops).1.stats.accesses := by
  induction ops with
  | nil => intro s T hT _ h; exact ⟨hT, h⟩
  | cons op ops ih =>
      intro s T hT hin h
      have hin' : ∀ a v, CacheOp.write a v ∈ ops → a < T := by
        intro a v hv
        exact hin a v (List.mem_cons_of_mem _ hv)
      cases op with
      | read a =>
          refine ih (CacheLevel.step s (CacheOp.read a)) T hT hin' ?_
          obtain ⟨h1, h2⟩ := read_stats_eq s.1 s.2 a
          simp only [CacheLevel.step]
          omega
      | write a v =>
          have hb : a < s.2.total_size := by
            rw [hT]
            exact hin a v (List.mem_cons_self _ _)
          have hmem := (write_mem_bytes s.1 s.2 a v hb).1
          refine ih (CacheLevel.step s (CacheOp.write a v)) T ?_ hin' ?_
          · simp only [CacheLevel.step]
            omega
          · obtain ⟨h1, h2⟩ := write_stats_inb s.1 s.2 a v hb
            simp only [CacheLevel.step]
            omega
      | contains a => exact ih s T hT hin' h
      | flush => exact ih (CacheLevel.step s CacheOp.flush) T hT hin' h

/-- C4 counterexample.  A write at the out-of-bounds address 1 of a 1-byte
memory increments `accesses` but returns before either `hits` or `misses`
is touched, so `hits + misses ≠ accesses` afterwards. -/
theorem c4_counters_counterexample :
    ¬ ((runCache (CacheLevel.init 1 1 1 CachePolicy.FIFO,
          PhysicalMemory.init 1) [CacheOp.write 1 5]).1.stats.hits
        + (runCache (CacheLevel.init 1 1 1 CachePolicy.FIFO,
          PhysicalMemory.init 1) [CacheOp.write 1 5]).1.stats.misses
        = (runCache (CacheLevel.init 1 1 1 CachePolicy.FIFO,
          PhysicalMemory.init 1) [CacheOp.write 1 5]).1.stats.accesses) := by
  decide

/-- C4, amended: over any operation sequence from a fresh `CacheLevel`,
`hits + misses ≤ accesses` always holds, with equality whenever every write
in the sequence is at an in-bounds address (an out-of-bounds write increments
only `accesses`; reads, even out-of-bounds ones, keep the equality); and a
`contains` step leaves the level, its counters, its clock and the memory
exactly unchanged. -/
theorem c4_counters (num_sets assoc bs : Nat) (policy : CachePolicy)
    (msize : Nat) (ops : List CacheOp) :
    ((runCache (CacheLevel.init num_sets assoc bs policy,
        PhysicalMemory.init msize) ops).1.stats.hits
      + (runCache (CacheLevel.init num_sets assoc bs policy,
        PhysicalMemory.init msize) ops).1.stats.misses
      ≤ (runCache (CacheLevel.init num_sets assoc bs policy,
        PhysicalMemory.init msize) ops).1.stats.accesses) ∧
    ((∀ a v, CacheOp.write a v ∈ ops → a < msize) →
      (runCache (CacheLevel.init num_sets assoc bs policy,
        PhysicalMemory.init msize) ops).1.stats.hits
      + (runCache (CacheLevel.init num_sets assoc bs policy,
        PhysicalMemory.init msize) ops).1.stats.misses
      = (runCache (CacheLevel.init num_sets assoc bs policy,
        PhysicalMemory.init msize) ops).1.stats.accesses) ∧
    (∀ (s : CacheLevel × PhysicalMemory) (a : Nat),
      CacheLevel.step s (CacheOp.contains a) = s) := by
  refine ⟨?_, ?_, fun s a => rfl⟩
  · exact runCache_le ops _ (by simp [CacheLevel.init])
  · intro hin
    exact (runCache_eq ops _ msize rfl hin (by simp [CacheLevel.init])).2

/-- C4 witness: the amended statement over a concrete in-bounds workload. -/
theorem c4_counters_witness :
    ((runCache (CacheLevel.init 2 1 2 CachePolicy.LRU,
        PhysicalMemory.init 8)
        [CacheOp.read 0, CacheOp.write 1 9, CacheOp.contains 5,
         CacheOp.flush, CacheOp.read 1]).1.stats.hits
      + (runCache (CacheLevel.init 2 1 2 CachePolicy.LRU,
        PhysicalMemory.init 8)
        [CacheOp.read 0, CacheOp.write 1 9, CacheOp.contains 5,
         CacheOp.flush, CacheOp.read 1]).1.stats.misses
      ≤ (runCache (CacheLevel.init 2 1 2 CachePolicy.LRU,
        PhysicalMemory.init 8)
        [CacheOp.read 0, CacheOp.write 1 9, CacheOp.contains 5,
         CacheOp.flush, CacheOp.read 1]).1.stats.accesses) ∧
    ((runCache (CacheLevel.init 2 1 2 CachePolicy.LRU,
        PhysicalMemory.init 8)
        [CacheOp.read 0, CacheOp.write 1 9, CacheOp.contains 5,
         CacheOp.flush, CacheOp.read 1]).1.stats.hits
      + (runCache (CacheLevel.init 2 1 2 CachePolicy.LRU,
        PhysicalMemory.init 8)
        [CacheOp.read 0, CacheOp.write 1 9, CacheOp.contains 5,
         CacheOp.flush, CacheOp.read 1]).1.stats.misses
      = (runCache (CacheLevel.init 2 1 2 CachePolicy.LRU,
        PhysicalMemory.init 8)
        [CacheOp.read 0, CacheOp.write 1 9, CacheOp.contains 5,
         CacheOp.flush, CacheOp.read 1]).1.stats.accesses) := by
  have h := c4_counters 2 1 2 CachePolicy.LRU 8
    [CacheOp.read 0, CacheOp.write 1 9, CacheOp.contains 5,
     CacheOp.flush, CacheOp.read 1]
  refine ⟨h.1, h.2.1 ?_⟩
  intro a v hv
  simp at hv
  omega

/-- Number of valid page-table entries. -/
def validCount (pt : List PageTableEntry) : Nat :=
  pt.countP fun p => p.valid

/-- Number of allocated frames. -/
def trueCount (fa : List Bool) : Nat :=
  fa.countP fun b => b

theorem countP_set_le_succ {α : Type} (p : α → Bool) :
    ∀ (l : List α) (i : Nat) (x : α),
      l.countP p ≤ (l.set i x).countP p + 1 := by
  intro l
  induction l with
  | nil => intro i x; simp
  | cons a l ih =>
      intro i x
      cases i with
      | zero => simp [List.countP_cons]; split <;> split <;> omega
      | succ j =>
          simp only [List.set, List.countP_cons]
          have := ih j x
          omega

theorem set_countP_le_succ {α : Type} (p : α → Bool) :
    ∀ (l : List α) (i : Nat) (x : α),
      (l.set i x).countP p ≤ l.countP p + 1 := by
  intro l
  induction l with
  | nil => intro i x; simp
  | cons a l ih =>
      intro i x
      cases i with
      | zero => simp [List.countP_cons]; split <;> split <;> omega
      | succ j =>
          simp only [List.set, List.countP_cons]
          have := ih j x
          omega

theorem countP_set_same {α : Type} (p : α → Bool) :
    ∀ (l : List α) (i : Nat) (x d : α), p x = p (l.getD i d) →
      (l.set i x).countP p = l.countP p := by
  intro l
  induction l with
  | nil => intro i x d _; simp
  | cons a l ih =>
      intro i x d h
      cases i with
      | zero =>
          simp only [List.getD_cons_zero] at h
          simp [List.countP_cons, h]
      | succ j =>
          simp only [List.getD_cons_succ] at h
          simp only [List.set, List.countP_cons]
          rw [ih j x d h]

theorem countP_set_incr {α : Type} (p : α → Bool) :
    ∀ (l : List α) (i : Nat) (x d : α), i < l.length →
      p (l.getD i d) = false → p x = true →
      (l.set i x).countP p = l.countP p + 1 := by
  intro l
  induction l with
  | nil => intro i x d h; simp at h
  | cons a l ih =>
      intro i x d hlen hold hnew
      cases i with
      | zero =>
          simp only [List.getD_cons_zero] at hold
          simp [List.countP_cons, hold, hnew]
      | succ j =>
          simp only [List.getD_cons_succ] at hold
          simp only [List.set, List.countP_cons]
          rw [ih j x d (by simpa using hlen) hold hnew]
          omega

theorem countP_set_decr {α : Type} (p : α → Bool) :
    ∀ (l : List α) (i : Nat) (x d : α), i < l.length →
      p (l.getD i d) = true → p x = false →
      (l.set i x).countP p + 1 = l.countP p := by
  intro l
  induction l with
  | nil => intro i x d h; simp at h
  | cons a l ih =>
      intro i x d hlen hold hnew
      cases i with
      | zero =>
          simp only [List.getD_cons_zero] at hold
          simp [List.countP_cons, hold, hnew]
      | succ j =>
          simp only [List.getD_cons_succ] at hold
          simp only [List.set, List.countP_cons]
          rw [← ih j x d (by simpa using hlen) hold hnew]
          omega

theorem countP_map_const_false {α : Type} (p : α → Bool) (c : α)
    (hc : p c = false) :
    ∀ (l : List α), (l.map fun _ => c).countP p = 0 := by
  intro l
  induction l with
  | nil => simp
  | cons a l ih => simp [List.countP_cons, hc, ih]

theorem findIdxP_spec {α : Type} (p : α → Bool) :
    ∀ (l : List α) (i : Nat) (d : α), findIdxP p l = some i →
      i < l.length ∧ p (l.getD i d) = true := by
  intro l
  induction l with
  | nil => intro i d h; simp [findIdxP] at h
  | cons a l ih =>
      intro i d h
      rw [findIdxP] at h
      by_cases hp : p a
      · rw [if_pos hp] at h
        cases h
        exact ⟨by simp, by simpa using hp⟩
      · rw [if_neg hp] at h
        cases hr : findIdxP p l with
        | none => rw [hr] at h; simp at h
        | some j =>
            rw [hr] at h
            simp at h
            subst h
            obtain ⟨h1, h2⟩ := ih j d hr
            exact ⟨by simpa using Nat.succ_lt_succ h1, by simpa using h2⟩

theorem getD_set_cases {α : Type} :
    ∀ (l : List α) (j : Nat) (x : α) (i : Nat) (d : α),
      (l.set j x).getD i d = l.getD i d ∨
      (i = j ∧ j < l.length ∧ (l.set j x).getD i d = x) := by
  intro l
  induction l with
  | nil => intro j x i d; left; simp
  | cons a l ih =>
      intro j x i d
      cases j with
      | zero =>
          cases i with
          | zero => right; exact ⟨rfl, by simp, by simp⟩
          | succ i' => left; simp
      | succ j' =>
          cases i with
          | zero => left; simp
          | succ i' =>
              rcases ih j' x i' d with h | ⟨h1, h2, h3⟩
              · left; simpa using h
              · right
                exact ⟨by omega, by simpa using Nat.succ_lt_succ h2, by simpa using h3⟩

theorem countP_eq_of_pointwise {α : Type} (p : α → Bool) (d : α) :
    ∀ (l l' : List α), l.length = l'.length →
      (∀ i, p (l.getD i d) = p (l'.getD i d)) → l.countP p = l'.countP p := by
  intro l
  induction l with
  | nil =>
      intro l' hlen _
      cases l' with
      | nil => rfl
      | cons b bs => simp at hlen
  | cons a as ih =>
      intro l' hlen hpt
      cases l' with
      | nil => simp at hlen
      | cons b bs =>
          simp only [List.countP_cons]
          have h0 := hpt 0
          simp only [List.getD_cons_zero] at h0
          rw [ih bs (by simpa using hlen) fun i => by simpa using hpt (i + 1), h0]

/-- The invariant used for the virtual-memory claims: the page table and the
frame tracker have their configured lengths, and there are never more valid
entries than allocated frames. -/
def VMInv (vm : VirtualMemory) : Prop :=
  vm.page_table.length = vm.num_virtual_pages ∧
  vm.frame_allocated.length = vm.num_physical_frames ∧
  validCount vm.page_table ≤ trueCount vm.frame_allocated

theorem clockScanGo_shape (n : Nat) :
    ∀ (fuel : Nat) (vm : VirtualMemory), ∃ pt ch,
      (clockScanGo n fuel vm).2 = { vm with page_table := pt, clock_hand := ch } ∧
      pt.length = vm.page_table.length ∧
      ∀ i, (pt.getD i default).valid = (vm.page_table.getD i default).valid := by
  intro fuel
  induction fuel with
  | zero =>
      intro vm
      exact ⟨vm.page_table, vm.clock_hand, rfl, rfl, fun i => rfl⟩
  | succ f ih =>
      intro vm
      rw [clockScanGo]
      by_cases hv : ((vm.page_table.getD vm.clock_hand default).valid
          && !(vm.page_table.getD vm.clock_hand default).referenced) = true
      · rw [if_pos hv]
        exact ⟨vm.page_table, (vm.clock_hand + 1) % n, rfl, rfl, fun i => rfl⟩
      · rw [if_neg hv]
        by_cases hval : (vm.page_table.getD vm.clock_hand default).valid = true
        · rw [if_pos hval]
          obtain ⟨pt, ch, heq, hlen, hpt⟩ := ih
            { vm with
              page_table := vm.page_table.set vm.clock_hand
                { vm.page_table.getD vm.clock_hand default with referenced := false },
              clock_hand := (vm.clock_hand + 1) % n }
          refine ⟨pt, ch, heq, by simpa using hlen, fun i => ?_⟩
          rw [hpt i]
          dsimp only
          rcases getD_set_cases vm.page_table vm.clock_hand
            { vm.page_table.getD vm.clock_hand default with referenced := false }
            i default with h | ⟨h1, _, h3⟩
          · rw [h]
          · rw [h3, h1]
        · rw [if_neg hval]
          obtain ⟨pt, ch, heq, hlen, hpt⟩ := ih
            { vm with clock_hand := (vm.clock_hand + 1) % n }
          exact ⟨pt, ch, heq, hlen, hpt⟩

theorem selectVictimPage_shape (vm : VirtualMemory) :
    ∃ pt ch,
      (vm.selectVictimPage).2 = { vm with page_table := pt, clock_hand := ch } ∧
      pt.length = vm.page_table.length ∧
      ∀ i, (pt.getD i default).valid = (vm.page_table.getD i default).valid := by
  unfold VirtualMemory.selectVictimPage
  cases hp : vm.policy with
  | FIFO =>
      cases hq : vm.fifo_queue with
      | nil =>
          refine ⟨vm.page_table, vm.clock_hand, ?_, rfl, fun i => rfl⟩
          dsimp only
          rw [← hp, ← hq]
      | cons v q =>
          refine ⟨vm.page_table, vm.clock_hand, ?_, rfl, fun i => rfl⟩
          dsimp only
          rw [← hp, ← hq]
  | LRU =>
      refine ⟨vm.page_table, vm.clock_hand, ?_, rfl, fun i => rfl⟩
      dsimp only
      rw [← hp]
  | CLOCK =>
      obtain ⟨pt, ch, heq, hlen, hpt⟩ :=
        clockScanGo_shape vm.num_virtual_pages (vm.num_virtual_pages * 2) vm
      cases hcs : clockScanGo vm.num_virtual_pages (vm.num_virtual_pages * 2) vm with
      | mk r vm' =>
          rw [hcs] at heq
          rw [hp] at heq
          cases r with
          | some v => exact ⟨pt, ch, heq, hlen, hpt⟩
          | none => exact ⟨pt, ch, heq, hlen, hpt⟩

theorem evictPage_shape (vm : VirtualMemory) (page : Nat) :
    ∃ pt fa q,
      vm.evictPage page =
        { vm with page_table := pt, frame_allocated := fa, fifo_queue := q } ∧
      pt.length = vm.page_table.length ∧
      fa.length = vm.frame_allocated.length ∧
      (∀ i, (pt.getD i default).valid = true →
        (vm.page_table.getD i default).valid = true) ∧
      (validCount vm.page_table ≤ trueCount vm.frame_allocated →
        validCount pt ≤ trueCount fa) := by
  unfold VirtualMemory.evictPage
  by_cases hv : (vm.page_table.getD page default).valid = true
  · rw [if_neg (by simp only [hv]; decide)]
    have hlt : page < vm.page_table.length := by
      by_contra hcon
      rw [List.getD_eq_default _ _ (by omega)] at hv
      simp [default, Inhabited.default] at hv
    refine ⟨vm.page_table.set page default,
      vm.frame_allocated.set (vm.page_table.getD page default).frame_number false,
      _, rfl, by simp, by simp, fun i hvi => ?_, fun hle => ?_⟩
    · rcases getD_set_cases vm.page_table page default i default with h | ⟨_, _, h3⟩
      · rw [← h]
        exact hvi
      · rw [h3] at hvi
        simp [default, Inhabited.default] at hvi
    · have hdec := countP_set_decr (fun p => p.valid) vm.page_table page default
        default hlt hv (by simp [default, Inhabited.default])
      have hfa := countP_set_le_succ (fun b => b) vm.frame_allocated
        (vm.page_table.getD page default).frame_number false
      unfold validCount trueCount at *
      omega
  · rw [if_pos (by simp [Bool.not_eq_true] at hv ⊢; exact hv)]
    exact ⟨vm.page_table, vm.frame_allocated, vm.fifo_queue, rfl, rfl, rfl,
      fun i h => h, fun h => h⟩

/-- Configuration fields that no operation may change. -/
def sameConfig (vm vm' : VirtualMemory) : Prop :=
  vm'.num_virtual_pages = vm.num_virtual_pages ∧
  vm'.num_physical_frames = vm.num_physical_frames ∧
  vm'.offset_bits = vm.offset_bits

theorem fill_state_inv (vmA : VirtualMemory) (page f : Nat)
    (pte : PageTableEntry) (q' : List Nat)
    (hInv : VMInv vmA) (hpage : page < vmA.num_virtual_pages)
    (hinv : (vmA.page_table.getD page default).valid = false)
    (hflt : f < vmA.frame_allocated.length)
    (hffree : vmA.frame_allocated.getD f false = false)
    (hptev : pte.valid = true) :
    VMInv { vmA with frame_allocated := vmA.frame_allocated.set f true,
                     page_table := vmA.page_table.set page pte,
                     fifo_queue := q' } := by
  obtain ⟨hlen1, hlen2, hle⟩ := hInv
  refine ⟨by simpa using hlen1, by simpa using hlen2, ?_⟩
  have hpt := countP_set_incr (fun p => p.valid) vmA.page_table page pte default
    (by omega) (by simpa using hinv) hptev
  have hfa := countP_set_incr (fun b => b) vmA.frame_allocated f true false
    hflt (by simpa using hffree) rfl
  unfold validCount trueCount at *
  dsimp only
  omega

theorem handlePageFault_inv (vm : VirtualMemory) (mem : PhysicalMemory)
    (page : Nat)
    (hInv : VMInv vm) (hpage : page < vm.num_virtual_pages)
    (hinvalid : (vm.page_table.getD page default).valid = false) :
    VMInv (vm.handlePageFault mem page).2.1 ∧
    sameConfig vm (vm.handlePageFault mem page).2.1 ∧
    (vm.handlePageFault mem page).2.1.stats = vm.stats := by
  unfold VirtualMemory.handlePageFault
  cases hff : vm.findFreeFrame with
  | some f =>
      dsimp only
      unfold VirtualMemory.findFreeFrame at hff
      obtain ⟨hflt, hffree⟩ := findIdxP_spec (fun b => !b) vm.frame_allocated f false hff
      simp only [Bool.not_eq_true'] at hffree
      by_cases hpol : vm.policy = PageReplacementPolicy.FIFO
      · rw [if_pos hpol]
        refine ⟨?_, ⟨rfl, rfl, rfl⟩, rfl⟩
        exact fill_state_inv vm page f _ _ hInv hpage hinvalid hflt hffree rfl
      · rw [if_neg hpol]
        refine ⟨?_, ⟨rfl, rfl, rfl⟩, rfl⟩
        exact fill_state_inv vm page f _ vm.fifo_queue hInv hpage hinvalid
          hflt hffree rfl
  | none =>
      dsimp only
      obtain ⟨ptS, chS, heqS, hlenS, hptS⟩ := selectVictimPage_shape vm
      cases hsv : vm.selectVictimPage with
      | mk victim vmS =>
          rw [hsv] at heqS
          dsimp only at heqS ⊢
          rw [heqS]
          obtain ⟨ptE, faE, qE, heqE, hlenE, hfaE, hvalE, hleE⟩ :=
            evictPage_shape { vm with page_table := ptS, clock_hand := chS } victim
          rw [heqE]
          dsimp only at hlenE hfaE hvalE hleE ⊢
          have hInvE : VMInv { vm with page_table := ptE, frame_allocated := faE, fifo_queue := qE, clock_hand := chS } := by
            refine ⟨by dsimp only; rw [hlenE, hlenS]; exact hInv.1,
              by dsimp only; rw [hfaE]; exact hInv.2.1, ?_⟩
            dsimp only
            refine hleE ?_
            have hps : validCount ptS = validCount vm.page_table :=
              countP_eq_of_pointwise _ default ptS vm.page_table
                (by omega) (fun i => by rw [hptS i])
            have h3 := hInv.2.2
            unfold validCount at hps
            unfold validCount trueCount at h3 ⊢
            omega
          have hinvE : (ptE.getD page default).valid = false := by
            by_cases hcon : (ptE.getD page default).valid = true
            · have h1 := hvalE page hcon
              rw [hptS page] at h1
              rw [h1] at hinvalid
              cases hinvalid
            · simpa using hcon
          simp only [VirtualMemory.findFreeFrame]
          cases hff2 : findIdxP (fun b => !b) faE with
          | none =>
              dsimp only
              exact ⟨hInvE, ⟨rfl, rfl, rfl⟩, rfl⟩
          | some f =>
              dsimp only
              obtain ⟨hflt, hffree⟩ := findIdxP_spec (fun b => !b) faE f false hff2
              simp only [Bool.not_eq_true'] at hffree
              by_cases hpol : vm.policy = PageReplacementPolicy.FIFO
              · rw [if_pos hpol]
                refine ⟨?_, ⟨rfl, rfl, rfl⟩, rfl⟩
                exact fill_state_inv { vm with page_table := ptE, frame_allocated := faE, fifo_queue := qE, clock_hand := chS } page f _ _ hInvE hpage hinvE hflt hffree rfl
              · rw [if_neg hpol]
                refine ⟨?_, ⟨rfl, rfl, rfl⟩, rfl⟩
                exact fill_state_inv { vm with page_table := ptE, frame_allocated := faE, fifo_queue := qE, clock_hand := chS } page f _ qE hInvE hpage hinvE hflt hffree rfl

theorem translate_spec (vm : VirtualMemory) (mem : PhysicalMemory)
    (vaddr : Nat) (hInv : VMInv vm) :
    VMInv (vm.translate mem vaddr).2.1 ∧
    sameConfig vm (vm.translate mem vaddr).2.1 ∧
    (vm.translate mem vaddr).2.1.stats.total_accesses
      = vm.stats.total_accesses + 1 ∧
    (vm.pageNumberOf vaddr < vm.num_virtual_pages →
      (vm.translate mem vaddr).2.1.stats.page_hits
        + (vm.translate mem vaddr).2.1.stats.page_faults
        = vm.stats.page_hits + vm.stats.page_faults + 1) ∧
    (¬ vm.pageNumberOf vaddr < vm.num_virtual_pages →
      (vm.translate mem vaddr).2.1.stats.page_hits
        + (vm.translate mem vaddr).2.1.stats.page_faults
        = vm.stats.page_hits + vm.stats.page_faults) := by
  unfold VirtualMemory.translate
  dsimp only
  by_cases hrange : vm.num_virtual_pages ≤ vm.pageNumberOf vaddr
  · rw [if_pos hrange]
    exact ⟨hInv, ⟨rfl, rfl, rfl⟩, rfl, fun hc => by omega, fun _ => rfl⟩
  · rw [if_neg hrange]
    by_cases hv : (vm.page_table.getD (vm.pageNumberOf vaddr) default).valid = true
    · rw [if_pos hv]
      refine ⟨⟨by simpa using hInv.1, by simpa using hInv.2.1, ?_⟩,
        ⟨rfl, rfl, rfl⟩, rfl, fun _ => by dsimp only; omega,
        fun hc => by omega⟩
      dsimp only
      have hsame := countP_set_same (fun p => p.valid) vm.page_table
        (vm.pageNumberOf vaddr)
        ((vm.page_table.getD (vm.pageNumberOf vaddr) default).recordAccess
          (vm.global_time + 1))
        default rfl
      have h3 := hInv.2.2
      unfold validCount trueCount at h3 ⊢
      omega
    · rw [if_neg hv]
      have hhandle := handlePageFault_inv { vm with stats := { page_faults := vm.stats.page_faults + 1, page_hits := vm.stats.page_hits, total_accesses := vm.stats.total_accesses + 1 }, global_time := vm.global_time + 1 } mem (vm.pageNumberOf vaddr) ⟨hInv.1, hInv.2.1, hInv.2.2⟩ (Nat.lt_of_not_le hrange) (by simpa using hv)
      cases hres : VirtualMemory.handlePageFault { vm with stats := { page_faults := vm.stats.page_faults + 1, page_hits := vm.stats.page_hits, total_accesses := vm.stats.total_accesses + 1 }, global_time := vm.global_time + 1 } mem (vm.pageNumberOf vaddr) with
      | mk r rest =>
          rw [hres] at hhandle
          cases rest with
          | mk vmH memH =>
              cases r with
              | none =>
                  dsimp only at hhandle ⊢
                  refine ⟨hhandle.1, hhandle.2.1, ?_, fun _ => ?_, fun hc => ?_⟩
                  · rw [hhandle.2.2]
                  · rw [hhandle.2.2]
                    dsimp only
                    omega
                  · exact absurd (Nat.lt_of_not_le hrange) hc
              | some f =>
                  dsimp only at hhandle ⊢
                  refine ⟨hhandle.1, hhandle.2.1, ?_, fun _ => ?_, fun hc => ?_⟩
                  · rw [hhandle.2.2]
                  · rw [hhandle.2.2]
                    dsimp only
                    omega
                  · exact absurd (Nat.lt_of_not_le hrange) hc


/-- A step's virtual page number is within the configured address space
(`flush` takes no address and counts as in range).  `translate` bumps only
`total_accesses` on an out-of-range page, so this is the side condition for
exact hit/fault accounting. -/
def vmOpInRange (vm : VirtualMemory) : VMOp → Bool
  | VMOp.translate a => vm.pageNumberOf a < vm.num_virtual_pages
  | VMOp.read a => vm.pageNumberOf a < vm.num_virtual_pages
  | VMOp.write a _ => vm.pageNumberOf a < vm.num_virtual_pages
  | VMOp.flush => true

theorem vmOpInRange_congr (vm vm' : VirtualMemory) (h : sameConfig vm vm')
    (op : VMOp) : vmOpInRange vm' op = vmOpInRange vm op := by
  obtain ⟨h1, h2, h3⟩ := h
  cases op <;> simp [vmOpInRange, VirtualMemory.pageNumberOf, h1, h3]

theorem read_vm_eq (vm : VirtualMemory) (mem : PhysicalMemory) (a : Nat) :
    (vm.read mem a).2.1 = (vm.translate mem a).2.1 := by
  unfold VirtualMemory.read
  cases htr : vm.translate mem a with
  | mk r rest =>
      cases rest with
      | mk vmT memT => cases r <;> rfl

theorem dirtySet_inv (vm : VirtualMemory) (pn : Nat) (hInv : VMInv vm) :
    VMInv { vm with page_table := vm.page_table.set pn { vm.page_table.getD pn default with dirty := true } } := by
  refine ⟨by simpa using hInv.1, by simpa using hInv.2.1, ?_⟩
  dsimp only
  have hx : ({ vm.page_table.getD pn default with dirty := true } : PageTableEntry).valid = (vm.page_table.getD pn default).valid := rfl
  have hsame := countP_set_same (fun p => p.valid) vm.page_table pn
    { vm.page_table.getD pn default with dirty := true } default hx
  have h3 := hInv.2.2
  unfold validCount trueCount at h3 ⊢
  exact Nat.le_trans (Nat.le_of_eq hsame) h3

theorem countP_replicate_zero {α : Type} (p : α → Bool) (c : α)
    (hc : p c = false) : ∀ n, (List.replicate n c).countP p = 0 := by
  intro n
  induction n with
  | zero => rfl
  | succ k ih => simp [List.replicate_succ, List.countP_cons, hc, ih]

theorem init_VMInv (nvp nf ps : Nat) (pol : PageReplacementPolicy) :
    VMInv (VirtualMemory.init nvp nf ps pol) := by
  refine ⟨by simp [VirtualMemory.init], by simp [VirtualMemory.init], ?_⟩
  unfold VirtualMemory.init validCount trueCount
  dsimp only
  rw [countP_replicate_zero _ _ rfl, countP_replicate_zero _ _ rfl]

/-- Single-operation accounting: the invariant and configuration are
preserved, `total_accesses` never decreases, the hit/fault increment never
exceeds the access increment, and matches it exactly for in-range
operations. -/
theorem step_spec (s : VirtualMemory × PhysicalMemory) (op : VMOp)
    (hInv : VMInv s.1) :
    VMInv (VirtualMemory.step s op).1 ∧
    sameConfig s.1 (VirtualMemory.step s op).1 ∧
    s.1.stats.total_accesses ≤ (VirtualMemory.step s op).1.stats.total_accesses ∧
    (VirtualMemory.step s op).1.stats.page_hits
        + (VirtualMemory.step s op).1.stats.page_faults
        + s.1.stats.total_accesses
      ≤ s.1.stats.page_hits + s.1.stats.page_faults
        + (VirtualMemory.step s op).1.stats.total_accesses ∧
    (vmOpInRange s.1 op = true →
      (VirtualMemory.step s op).1.stats.page_hits
          + (VirtualMemory.step s op).1.stats.page_faults
          + s.1.stats.total_accesses
        = s.1.stats.page_hits + s.1.stats.page_faults
          + (VirtualMemory.step s op).1.stats.total_accesses) := by
  cases op with
  | translate a =>
      unfold VirtualMemory.step
      dsimp only
      obtain ⟨h1, h2, h3, h4, h5⟩ := translate_spec s.1 s.2 a hInv
      refine ⟨h1, h2, by omega, ?_, ?_⟩
      · by_cases hp : s.1.pageNumberOf a < s.1.num_virtual_pages
        · have := h4 hp; omega
        · have := h5 hp; omega
      · intro hin
        have hp : s.1.pageNumberOf a < s.1.num_virtual_pages := by
          simpa [vmOpInRange] using hin
        have := h4 hp; omega
  | read a =>
      unfold VirtualMemory.step
      dsimp only
      rw [read_vm_eq]
      obtain ⟨h1, h2, h3, h4, h5⟩ := translate_spec s.1 s.2 a hInv
      refine ⟨h1, h2, by omega, ?_, ?_⟩
      · by_cases hp : s.1.pageNumberOf a < s.1.num_virtual_pages
        · have := h4 hp; omega
        · have := h5 hp; omega
      · intro hin
        have hp : s.1.pageNumberOf a < s.1.num_virtual_pages := by
          simpa [vmOpInRange] using hin
        have := h4 hp; omega
  | write a v =>
      unfold VirtualMemory.step
      dsimp only
      have htr := translate_spec s.1 s.2 a hInv
      unfold VirtualMemory.write
      cases hres : s.1.translate s.2 a with
      | mk r rest =>
          rw [hres] at htr
          cases rest with
          | mk vmT memT =>
              obtain ⟨h1, h2, h3, h4, h5⟩ := htr
              dsimp only at h1 h2 h3 h4 h5
              cases r with
              | none =>
                  dsimp only
                  refine ⟨h1, h2, by omega, ?_, ?_⟩
                  · by_cases hp : s.1.pageNumberOf a < s.1.num_virtual_pages
                    · have := h4 hp; omega
                    · have := h5 hp; omega
                  · intro hin
                    have hp : s.1.pageNumberOf a < s.1.num_virtual_pages := by
                      simpa [vmOpInRange] using hin
                    have := h4 hp; omega
              | some paddr =>
                  dsimp only
                  have hInvD := dirtySet_inv vmT (vmT.pageNumberOf a) h1
                  cases hw : memT.writeByte paddr v with
                  | none =>
                      dsimp only
                      refine ⟨hInvD, ⟨h2.1, h2.2.1, h2.2.2⟩, by omega, ?_, ?_⟩
                      · by_cases hp : s.1.pageNumberOf a < s.1.num_virtual_pages
                        · have := h4 hp; omega
                        · have := h5 hp; omega
                      · intro hin
                        have hp : s.1.pageNumberOf a < s.1.num_virtual_pages := by
                          simpa [vmOpInRange] using hin
                        have := h4 hp; omega
                  | some mem' =>
                      dsimp only
                      refine ⟨hInvD, ⟨h2.1, h2.2.1, h2.2.2⟩, by omega, ?_, ?_⟩
                      · by_cases hp : s.1.pageNumberOf a < s.1.num_virtual_pages
                        · have := h4 hp; omega
                        · have := h5 hp; omega
                      · intro hin
                        have hp : s.1.pageNumberOf a < s.1.num_virtual_pages := by
                          simpa [vmOpInRange] using hin
                        have := h4 hp; omega
  | flush =>
      unfold VirtualMemory.step
      dsimp only
      refine ⟨⟨?_, ?_, ?_⟩, ⟨rfl, rfl, rfl⟩, Nat.le_refl _, Nat.le_refl _,
        fun _ => rfl⟩
      · unfold VirtualMemory.flush
        dsimp only
        rw [List.length_map]
        exact hInv.1
      · unfold VirtualMemory.flush
        dsimp only
        rw [List.length_map]
        exact hInv.2.1
      · unfold VirtualMemory.flush validCount
        dsimp only
        rw [countP_map_const_false _ default rfl]
        exact Nat.zero_le _

/-- Multi-operation accounting over `runVM`, by induction on the list. -/
theorem runVM_spec :
    ∀ (ops : List VMOp) (s : VirtualMemory × PhysicalMemory), VMInv s.1 →
    VMInv (runVM s ops).1 ∧
    sameConfig s.1 (runVM s ops).1 ∧
    s.1.stats.total_accesses ≤ (runVM s ops).1.stats.total_accesses ∧
    (runVM s ops).1.stats.page_hits + (runVM s ops).1.stats.page_faults
        + s.1.stats.total_accesses
      ≤ s.1.stats.page_hits + s.1.stats.page_faults
        + (runVM s ops).1.stats.total_accesses ∧
    ((∀ op ∈ ops, vmOpInRange s.1 op = true) →
      (runVM s ops).1.stats.page_hits + (runVM s ops).1.stats.page_faults
          + s.1.stats.total_accesses
        = s.1.stats.page_hits + s.1.stats.page_faults
          + (runVM s ops).1.stats.total_accesses) := by
  intro ops
  induction ops with
  | nil =>
      intro s hInv
      exact ⟨hInv, ⟨rfl, rfl, rfl⟩, Nat.le_refl _, Nat.le_refl _, fun _ => rfl⟩
  | cons op ops ih =>
      intro s hInv
      obtain ⟨s1Inv, s1cfg, s1le, s1ineq, s1eq⟩ := step_spec s op hInv
      obtain ⟨rInv, rcfg, rle, rineq, req⟩ :=
        ih (VirtualMemory.step s op) s1Inv
      have hrw : runVM s (op :: ops) = runVM (VirtualMemory.step s op) ops := rfl
      rw [hrw]
      refine ⟨rInv, ?_, by omega, by omega, ?_⟩
      · exact ⟨by rw [rcfg.1, s1cfg.1], by rw [rcfg.2.1, s1cfg.2.1],
          by rw [rcfg.2.2, s1cfg.2.2]⟩
      · intro hall
        have h1 := s1eq (hall op (List.mem_cons_self op ops))
        have h2 := req fun op' hop' => by
          rw [vmOpInRange_congr s.1 (VirtualMemory.step s op).1 s1cfg op']
          exact hall op' (List.mem_cons_of_mem op hop')
        omega


/-- Claim C3, counterexample: on a `VirtualMemory(num_vpages=1, num_frames=1,
page_size=1, FIFO)`, a single read at virtual address 5 (page number 5, out of
range) bumps `total_accesses` to 1 but neither `page_hits` nor `page_faults`,
so `page_faults + page_hits = total_accesses` fails. -/
theorem c3_stats_equality_counterexample :
    ¬ ((runVM (VirtualMemory.init 1 1 1 PageReplacementPolicy.FIFO, PhysicalMemory.init 1) [VMOp.read 5]).1.stats.page_faults
        + (runVM (VirtualMemory.init 1 1 1 PageReplacementPolicy.FIFO, PhysicalMemory.init 1) [VMOp.read 5]).1.stats.page_hits
        = (runVM (VirtualMemory.init 1 1 1 PageReplacementPolicy.FIFO, PhysicalMemory.init 1) [VMOp.read 5]).1.stats.total_accesses) := by
  decide

/-- Claim C3, amended: for every freshly constructed `VirtualMemory` and every
sequence of translate/read/write/flush operations, `page_faults + page_hits ≤
total_accesses` holds, the number of valid page-table entries never exceeds
`num_physical_frames`, and when every operation's virtual page number is in
range the accounting is exact: `page_faults + page_hits = total_accesses`.
(Out-of-range accesses bump only `total_accesses`, which refutes the
unconditional equality of the original claim.) -/
theorem c3_vm_accounting (nvp nf ps msz : Nat) (pol : PageReplacementPolicy)
    (ops : List VMOp) :
    (runVM (VirtualMemory.init nvp nf ps pol, PhysicalMemory.init msz) ops).1.stats.page_faults
        + (runVM (VirtualMemory.init nvp nf ps pol, PhysicalMemory.init msz) ops).1.stats.page_hits
      ≤ (runVM (VirtualMemory.init nvp nf ps pol, PhysicalMemory.init msz) ops).1.stats.total_accesses ∧
    validCount (runVM (VirtualMemory.init nvp nf ps pol, PhysicalMemory.init msz) ops).1.page_table
      ≤ (runVM (VirtualMemory.init nvp nf ps pol, PhysicalMemory.init msz) ops).1.num_physical_frames ∧
    ((∀ op ∈ ops, vmOpInRange (VirtualMemory.init nvp nf ps pol) op = true) →
      (runVM (VirtualMemory.init nvp nf ps pol, PhysicalMemory.init msz) ops).1.stats.page_faults
          + (runVM (VirtualMemory.init nvp nf ps pol, PhysicalMemory.init msz) ops).1.stats.page_hits
        = (runVM (VirtualMemory.init nvp nf ps pol, PhysicalMemory.init msz) ops).1.stats.total_accesses) := by
  obtain ⟨hInv, hcfg, hle, hineq, heq⟩ :=
    runVM_spec ops (VirtualMemory.init nvp nf ps pol, PhysicalMemory.init msz)
      (init_VMInv nvp nf ps pol)
  have e1 : (VirtualMemory.init nvp nf ps pol, PhysicalMemory.init msz).1.stats.page_hits = 0 := rfl
  have e2 : (VirtualMemory.init nvp nf ps pol, PhysicalMemory.init msz).1.stats.page_faults = 0 := rfl
  have e3 : (VirtualMemory.init nvp nf ps pol, PhysicalMemory.init msz).1.stats.total_accesses = 0 := rfl
  refine ⟨by omega, ?_, ?_⟩
  · have h2 : trueCount (runVM (VirtualMemory.init nvp nf ps pol, PhysicalMemory.init msz) ops).1.frame_allocated
        ≤ (runVM (VirtualMemory.init nvp nf ps pol, PhysicalMemory.init msz) ops).1.frame_allocated.length :=
      List.countP_le_length _
    have h3 := hInv.2.2
    have h4 := hInv.2.1
    omega
  · intro hall
    have h5 := heq hall
    omega

/-- Witness for claim C3 at concrete inputs: three in-range operations over
`VirtualMemory(4, 3, 256, CLOCK)` with exact accounting. -/
theorem c3_vm_accounting_witness :
    (∀ op ∈ [VMOp.read 0, VMOp.read 256, VMOp.write 300 7],
        vmOpInRange (VirtualMemory.init 4 3 256 PageReplacementPolicy.CLOCK) op = true) ∧
    (runVM (VirtualMemory.init 4 3 256 PageReplacementPolicy.CLOCK, PhysicalMemory.init 1024) [VMOp.read 0, VMOp.read 256, VMOp.write 300 7]).1.stats.page_faults
        + (runVM (VirtualMemory.init 4 3 256 PageReplacementPolicy.CLOCK, PhysicalMemory.init 1024) [VMOp.read 0, VMOp.read 256, VMOp.write 300 7]).1.stats.page_hits
      = (runVM (VirtualMemory.init 4 3 256 PageReplacementPolicy.CLOCK, PhysicalMemory.init 1024) [VMOp.read 0, VMOp.read 256, VMOp.write 300 7]).1.stats.total_accesses := by
  refine ⟨by decide, ?_⟩
  exact (c3_vm_accounting 4 3 256 1024 PageReplacementPolicy.CLOCK
    [VMOp.read 0, VMOp.read 256, VMOp.write 300 7]).2.2 (by decide)

end MemSimX
